import Mathlib

/-!
# Verification of the Firestore schema explorer core (`src/main.py`)

A shallow embedding of the pure core of `FirestoreSchemaExplorer`:
the type inferencer (`describe_type`, `describe_fields`), the timeout
wrapper (`_run_with_timeout`), the safe streaming helper
(`_safe_stream_collection`), the traversal (`process_collection`) and the
JSON line parser of `export_to_file`.  Remote-store behaviour is modelled
as data: each remote call is a value of `OpBehavior` saying whether the
underlying operation completes, stalls past the deadline, or raises.
-/

namespace FirestoreSchema

/-- Exceptions the explorer distinguishes: `google.api_core.exceptions.PermissionDenied`,
the custom `TimeoutError` synthesised by `_run_with_timeout`, and every other
exception, carrying its `str(e)` message. -/
inductive Exc : Type
  | permissionDenied (msg : String)
  | timeoutError (msg : String)
  | other (msg : String)
  deriving DecidableEq, Repr

/-- `str(e)` of a Python exception: its message. -/
def Exc.str : Exc → String
  | .permissionDenied m => m
  | .timeoutError m => m
  | .other m => m

/-- `isinstance(e, PermissionDenied)`. -/
def Exc.isPermissionDenied : Exc → Bool
  | .permissionDenied _ => true
  | _ => false

/-- A Firestore value, as the Python code sees it.  The duck-typed checks of
`describe_type` (`hasattr "timestamp"`, `latitude`/`longitude`, `path`)
correspond to the `timestamp`, `geopoint` and `reference` constructors;
`unknown` is a value of a type outside `TYPE_MAPPING` with the given
runtime type name (`type(value).__name__`). -/
inductive Value : Type
  | null : Value
  | boolean (b : Bool) : Value
  | integer (n : Int) : Value
  | float (q : ℚ) : Value
  | string (s : String) : Value
  | bytes (bs : List Nat) : Value
  | map (entries : List (String × Value)) : Value
  | array (elems : List Value) : Value
  | timestamp : Value
  | geopoint : Value
  | reference (path : String) : Value
  | unknown (typeName : String) : Value

/-- The runtime types appearing as keys of `TYPE_MAPPING`, plus a catch-all
for types not in the mapping. -/
inductive PyType : Type
  | str | boolT | intT | floatT | dict | list | noneType | datetime | geoPoint | bytesT
  | otherType (name : String)
  deriving DecidableEq, Repr

/-- `type(value)` for the embedded values. -/
def type_of : Value → PyType
  | .null => .noneType
  | .boolean _ => .boolT
  | .integer _ => .intT
  | .float _ => .floatT
  | .string _ => .str
  | .bytes _ => .bytesT
  | .map _ => .dict
  | .array _ => .list
  | .timestamp => .datetime
  | .geopoint => .geoPoint
  | .reference _ => .otherType "DocumentReference"
  | .unknown n => .otherType n

/-- `TYPE_MAPPING`: the class-level dict mapping runtime types to
type-label strings (`src/main.py` lines 59–70).  Dict lookup is exact-type
lookup, so `bool` and `int` are distinct keys. -/
def TYPE_MAPPING : List (PyType × String) :=
  [(.str, "string"), (.boolT, "boolean"), (.intT, "integer"), (.floatT, "float"),
   (.dict, "map"), (.list, "array"), (.noneType, "null"), (.datetime, "timestamp"),
   (.geoPoint, "geopoint"), (.bytesT, "bytes")]

/-- `type.__name__` for the catch-all fallback of `describe_type`. -/
def PyType.name : PyType → String
  | .str => "str"
  | .boolT => "bool"
  | .intT => "int"
  | .floatT => "float"
  | .dict => "dict"
  | .list => "list"
  | .noneType => "NoneType"
  | .datetime => "datetime"
  | .geoPoint => "GeoPoint"
  | .bytesT => "bytes"
  | .otherType n => n

/-- Configuration of the explorer (constructor arguments of
`FirestoreSchemaExplorer`). -/
structure Config where
  max_docs : Nat := 5
  max_depth : Nat := 5
  include_stats : Bool := true
  sample_arrays : Bool := true
  array_sample_size : Nat := 3
  timeout : Nat := 30
  deriving Repr

/-- Lexicographic comparison of character lists by code point — Python's
`<=` on strings. -/
def charListLe : List Char → List Char → Bool
  | [], _ => true
  | _ :: _, [] => false
  | c :: cs, d :: ds =>
    if c.toNat < d.toNat then true
    else if d.toNat < c.toNat then false
    else charListLe cs ds

/-- Python's `<=` on strings: lexicographic by code point. -/
def pyLe (a b : String) : Bool := charListLe a.data b.data

/-- Python's `sorted` on a set of strings: deduplicate, then sort
ascending by the lexicographic code-point order. -/
def sortedSet (l : List String) : List String :=
  l.dedup.insertionSort (fun a b => pyLe a b = true)

mutual

/-- `describe_type` (`src/main.py` lines 184–225): the type label of a value.
`null` first; then the duck-typed checks for timestamp / geopoint /
reference; then the `TYPE_MAPPING` lookup, with the array special case:
empty array is `array<?>`; with sampling on, the labels of the first
`min(len, array_sample_size)` elements are collected into a set and the
result is `array<T>` when the set is a singleton, otherwise
`array<mixed:` + sorted comma-joined set + `>`; with sampling off, the
first element's label is used unconditionally. -/
def describe_type (cfg : Config) : Value → String
  | .null => "null"
  | .timestamp => "timestamp"
  | .geopoint => "geopoint"
  | .reference p => "reference→" ++ p
  | .array l =>
    match l with
    | [] => "array<?>"
    | v :: vs =>
      if cfg.sample_arrays then
        let sample_size := min (v :: vs).length cfg.array_sample_size
        let element_types := sortedSet ( describe_prefix cfg (v :: vs) sample_size)
        match element_types with
        | [t] => "array<" ++ t ++ ">"
        | ts => "array<mixed:" ++ String.intercalate "," ts ++ ">"
      else
        "array<" ++ describe_type cfg v ++ ">"
  | v =>
    match (TYPE_MAPPING.lookup (type_of v)) with
    | some base_type => base_type
    | none => (type_of v).name

/-- The labels of the first `n` elements of an array (the sampling loop
`for i in range(sample_size)` of `describe_type`). -/
def describe_prefix (cfg : Config) : List Value → Nat → List String
  | _, 0 => []
  | [], _ + 1 => []
  | v :: vs, n + 1 => describe_type cfg v :: describe_prefix cfg vs n

end

/-- `self.indent(level)`: `"  " * level`, a string of `2 * level` spaces. -/
def indent (level : Nat) : String :=
  ⟨List.replicate (2 * level) ' '⟩

/-- `" " * n` (the per-line indent of `describe_fields`). -/
def spaces (n : Nat) : String :=
  ⟨List.replicate n ' '⟩

/-- Python's `sorted(data.items())` for a dict: entries ascending by key
(keys of a dict are distinct, so the key alone decides the order). -/
def sortByKey (data : List (String × Value)) : List (String × Value) :=
  data.insertionSort (fun a b => pyLe a.1 b.1 = true)

theorem sizeOf_sortByKey (data : List (String × Value)) :
    sizeOf (sortByKey data) = sizeOf data := by
  unfold sortByKey
  exact (List.perm_insertionSort _ data).sizeOf_eq_sizeOf

/-- The body of the `for key, value in sorted(data.items())` loop of
`describe_fields` (`src/main.py` lines 237–246), on an already sorted
entry list.  Returns the appended output lines together with the number
of `self.stats["fields"] += 1` increments performed. -/
def describe_entries (cfg : Config) : List (String × Value) → Nat → List String × Nat
  | [], _ => ([], 0)
  | (key, value) :: rest, level =>
    let field_type := describe_type cfg value
    let line := spaces (2 * level) ++ "- `" ++ key ++ "` (" ++ field_type ++ ")"
    let sub : List String × Nat :=
      match value with
      | .map m => describe_entries cfg (sortByKey m) (level + 1)
      | _ => ([], 0)
    let tail := describe_entries cfg rest level
    (line :: (sub.1 ++ tail.1), (1 + sub.2) + tail.2)
  termination_by data _ => sizeOf data
  decreasing_by
  all_goals (try simp only [sizeOf_sortByKey]); (try simp); (try omega)

/-- `describe_fields(data, level, output_lines)` (`src/main.py` lines
227–246): the lines appended to `output_lines` and the number of field
increments. -/
def describe_fields (cfg : Config) (data : List (String × Value)) (level : Nat) :
    List String × Nat :=
  describe_entries cfg (sortByKey data) level

/-- The counter fields of `self.stats` (`start_time`/`duration` are
wall-clock values and are not modelled). -/
structure Stats where
  collections : Nat := 0
  documents : Nat := 0
  fields : Nat := 0
  timeouts : Nat := 0
  errors : Nat := 0
  deriving DecidableEq, Repr

/-- How the operation handed to `_run_with_timeout` behaves: it returns a
result within the deadline, it is still running when `future.result`
times out, or it raises an exception. -/
inductive OpBehavior (α : Type) : Type
  | completes (result : α)
  | stalls
  | raises (e : Exc)

/-- One entry of `self._collection_tree`. -/
structure TreeInfo where
  doc_count : Nat
  doc_count_str : String
  deriving DecidableEq, Repr

/-- The mutable state of the explorer touched by the traversal. -/
structure ExplorerState where
  stats : Stats := {}
  processed_paths : List String := []
  collection_tree : List (String × TreeInfo) := []
  deriving DecidableEq, Repr

/-- Python dict assignment `d[k] = v` on an insertion-ordered dict. -/
def setAssoc {α : Type} (l : List (String × α)) (k : String) (v : α) :
    List (String × α) :=
  if l.any (fun p => p.1 == k) then
    l.map (fun p => if p.1 == k then (k, v) else p)
  else
    l ++ [(k, v)]

/-- `_run_with_timeout` (`src/main.py` lines 116–149): waits for the
submitted future with `timeout=self.timeout`.  Success returns
`(result, False, None)`; a timeout increments `stats["timeouts"]` and
returns `(None, True, TimeoutError(...))`; any exception raised by the
operation increments `stats["errors"]` and returns `(None, False, e)`. -/
def run_with_timeout {α : Type} (cfg : Config) (op : OpBehavior α)
    (st : ExplorerState) : (Option α × Bool × Option Exc) × ExplorerState :=
  match op with
  | .completes result => ((some result, false, none), st)
  | .stalls =>
    ((none, true,
      some (.timeoutError
        ("Operation timed out after " ++ toString cfg.timeout ++ " seconds"))),
     { st with stats.timeouts := st.stats.timeouts + 1 })
  | .raises e =>
    ((none, false, some e),
     { st with stats.errors := st.stats.errors + 1 })

/-- A sampled document: its id, its `to_dict()` data, and — because
`doc.reference.collections()` is a remote call — the behaviour of the
child-collection listing for this document. -/
structure DocSnapshot where
  id : String
  data : List (String × Value)
  subcollections : OpBehavior (List String)

/-- Behaviour of one collection path's remote calls: the limit-1000 count
stream and the limit-`max_docs` sampling stream. -/
structure CollectionBehavior where
  countDocs : OpBehavior (List DocSnapshot)
  sampleDocs : OpBehavior (List DocSnapshot)

/-- The remote store: remote-call behaviour per collection path. -/
def Store : Type := String → CollectionBehavior

/-- `_safe_stream_collection` (`src/main.py` lines 248–278): run the
stream through `_run_with_timeout`; on timeout return `[]`, on a
`PermissionDenied` error re-raise (modelled as `Except.error`), on any
other error return `[]`, otherwise the documents. -/
def safe_stream_collection (cfg : Config) (beh : OpBehavior (List DocSnapshot))
    (st : ExplorerState) : Except Exc (List DocSnapshot) × ExplorerState :=
  let ((docs, timed_out, error), st') := run_with_timeout cfg beh st
  if timed_out then (.ok [], st')
  else
    match error with
    | some e => if e.isPermissionDenied then (.error e, st') else (.ok [], st')
    | none => (.ok (docs.getD []), st')

mutual

/-- `process_collection` (`src/main.py` lines 280–422).  The entry guard
skips already-visited paths and levels at or beyond `max_depth`; then the
path is marked visited, the collections counter is incremented, the
optional count query and the header are produced, the documents are
sampled through `_safe_stream_collection` (a re-raised `PermissionDenied`
yields the indented permission marker, an empty result the
`*No documents found*` marker), and each document is processed. -/
def process_collection (cfg : Config) (store : Store) (path : String)
    (level : Nat) (st : ExplorerState) : List String × ExplorerState :=
  if path ∈ st.processed_paths ∨ cfg.max_depth ≤ level then ([], st)
  else
    let st := { st with processed_paths := path :: st.processed_paths }
    let st := { st with stats.collections := st.stats.collections + 1 }
    -- stats block: bounded count query (lines 313–334)
    let (doc_count, doc_count_str, st) :=
      if cfg.include_stats then
        let ((docs, timed_out, error), st) :=
          run_with_timeout cfg (store path).countDocs st
        if timed_out then ((none : Option Nat), "unknown (timed out)", st)
        else
          match error with
          | some _ => (none, "unknown (error)", st)
          | none =>
            let n := (docs.getD []).length
            (some n, if 1000 ≤ n then toString n ++ "+" else toString n, st)
      else (none, "", st)
    -- collection tree entry (lines 336–341)
    let actual_doc_count := doc_count.getD 0
    let tree_entry : TreeInfo :=
      ⟨actual_doc_count, if doc_count.isSome then doc_count_str else "unknown"⟩
    let st := { st with
      collection_tree := setAssoc st.collection_tree path tree_entry }
    -- collection header (lines 343–347)
    let collection_header := "### Collection: `" ++ path ++ "`" ++
      (if doc_count.isSome then " (" ++ doc_count_str ++ " documents)" else "")
    -- document sampling (lines 349–362)
    match safe_stream_collection cfg (store path).sampleDocs st with
    | (.error _, st) =>
      ([collection_header, indent (level + 1) ++ "*Permission denied when accessing documents*"], st)
    | (.ok docs, st) =>
      if docs.isEmpty then ([collection_header, "*No documents found*"], st)
      else
        let (docLines, st) := process_docs cfg store path level docs st
        (collection_header :: docLines, st)
  termination_by (cfg.max_depth - level, 2, 0)

/-- The `for i, doc in enumerate(docs)` loop of `process_collection`
(`src/main.py` lines 365–402): skip empty documents; otherwise count the
document, emit its header and field lines, and — when
`level < max_depth - 1` — fetch its child collections through
`_run_with_timeout`, reporting a timeout or error inline and recursing
into each child collection otherwise. -/
def process_docs (cfg : Config) (store : Store) (path : String) (level : Nat)
    (docs : List DocSnapshot) (st : ExplorerState) : List String × ExplorerState :=
  match docs with
  | [] => ([], st)
  | doc :: rest =>
    if doc.data.isEmpty then process_docs cfg store path level rest st
    else
      let st := { st with stats.documents := st.stats.documents + 1 }
      let doc_header := "#### Document: `" ++ doc.id ++ "`"
      let (fieldLines, nfields) := describe_fields cfg doc.data (level + 2)
      let st := { st with stats.fields := st.stats.fields + nfields }
      if h : level < cfg.max_depth - 1 then
        let ((subcollections, timed_out, error), st) :=
          run_with_timeout cfg doc.subcollections st
        if timed_out then
          let (tailLines, st) := process_docs cfg store path level rest st
          (doc_header :: fieldLines ++
            "*Timed out when fetching subcollections*" :: tailLines, st)
        else
          match error with
          | some e =>
            let (tailLines, st) := process_docs cfg store path level rest st
            (doc_header :: fieldLines ++
              ("*Error fetching subcollections: " ++ e.str ++ "*") :: tailLines, st)
          | none =>
            let (subLines, st) :=
              process_subcols cfg store (path ++ "/" ++ doc.id) level
                (subcollections.getD []) st h
            let (tailLines, st) := process_docs cfg store path level rest st
            (doc_header :: fieldLines ++ subLines ++ tailLines, st)
      else
        let (tailLines, st) := process_docs cfg store path level rest st
        (doc_header :: fieldLines ++ tailLines, st)
  termination_by (cfg.max_depth - level, 1, docs.length)

/-- The `for subcol in subcollections or []` loop (`src/main.py` lines
396–402): recurse into each child collection at `level + 2` under the
full path `doc.reference.path + "/" + subcol.id`. -/
def process_subcols (cfg : Config) (store : Store) (docPath : String)
    (level : Nat) (subcols : List String) (st : ExplorerState)
    (h : level < cfg.max_depth - 1) : List String × ExplorerState :=
  match subcols with
  | [] => ([], st)
  | subcolId :: rest =>
    let (subLines, st) :=
      process_collection cfg store (docPath ++ "/" ++ subcolId) (level + 2) st
    let (restLines, st) := process_subcols cfg store docPath level rest st h
    (subLines ++ restLines, st)
  termination_by (cfg.max_depth - level, 0, subcols.length)
  decreasing_by
  · apply Prod.Lex.left; omega
  · apply Prod.Lex.right; apply Prod.Lex.right; simp only [List.length_cons]; omega

end

set_option maxRecDepth 20000
set_option maxHeartbeats 2000000

/-! ## Example stores for witnesses and counterexamples -/

/-- A store whose document sampling raises `PermissionDenied`. -/
def permStore : Store := fun _ =>
  ⟨.completes [], .raises (.permissionDenied "403 Missing or insufficient permissions.")⟩

/-- A store whose document sampling stalls past the deadline. -/
def stallStore : Store := fun _ => ⟨.completes [], .stalls⟩

/-- A store with one sampled document that has empty data and a stalling
child-collection listing. -/
def emptyDocStore : Store := fun _ =>
  ⟨.completes [], .completes [⟨"d", [], .stalls⟩]⟩

/-- A store with one sampled document with data and a stalling
child-collection listing. -/
def slowSubcolStore : Store := fun _ =>
  ⟨.completes [], .completes [⟨"d", [("f", .integer 1)], .stalls⟩]⟩

/-! ## Claims -/

/-- C10: for every boolean value, `describe_type` returns `"boolean"` and
never `"integer"`: `TYPE_MAPPING` is keyed by the exact runtime type, and
`type(True)` is `bool`, not `int`, so booleans are not classified as
integers even though Python treats `bool` as a subtype of `int`. -/
theorem c10_bool_label (cfg : Config) (b : Bool) :
    describe_type cfg (Value.boolean b) = "boolean" ∧
    describe_type cfg (Value.boolean b) ≠ "integer" :=
  ⟨rfl, by
    intro h
    rw [show describe_type cfg (Value.boolean b) = "boolean" from rfl] at h
    exact absurd h (by decide)⟩

/-- C5: the entry guard of `process_collection`: if the path has already
been visited or the level is at or beyond `max_depth`, the call returns an
empty output and leaves the entire explorer state — all counters, the
visited set and the collection tree — unchanged; since the pure model
performs remote calls only through the store argument in later steps, no
remote call is made.  In particular re-invoking on an already-visited path
returns empty output, so every path is visited at most once per run. -/
theorem c5_entry_guard (cfg : Config) (store : Store) (path : String)
    (level : Nat) (st : ExplorerState)
    (h : path ∈ st.processed_paths ∨ cfg.max_depth ≤ level) :
    process_collection cfg store path level st = ([], st) := by
  rw [process_collection]
  simp [h]

unseal describe_entries process_collection process_docs process_subcols in
/-- C5 witness: visiting `"c"` twice — the second call hits the guard. -/
theorem c5_entry_guard_witness :
    ("c" ∈ ["c", "b"] ∨ (5 : Nat) ≤ 0) ∧
    process_collection {} stallStore "c" 0 { processed_paths := ["c", "b"] } =
      ([], { processed_paths := ["c", "b"] }) :=
  ⟨by decide,
   c5_entry_guard {} stallStore "c" 0 { processed_paths := ["c", "b"] } (by decide)⟩

/-- C4 counterexample: the claim says a timed-out outcome carries no
error, but `_run_with_timeout` returns
`(None, True, TimeoutError(...))` on timeout — the error slot of a
timed-out outcome holds the synthesized `TimeoutError`, as the repo's own
`test_run_with_timeout_timeout` asserts
(`isinstance(error, TimeoutError)`). -/
theorem c4_counterexample :
    (run_with_timeout {} (OpBehavior.stalls : OpBehavior (List DocSnapshot)) {}).1.2.1 = true ∧
    (run_with_timeout {} (OpBehavior.stalls : OpBehavior (List DocSnapshot)) {}).1.2.2 =
      some (Exc.timeoutError "Operation timed out after 30 seconds") ∧
    ¬((run_with_timeout {} (OpBehavior.stalls : OpBehavior (List DocSnapshot)) {}).1.2.2 = none) := by
  refine ⟨rfl, rfl, ?_⟩
  intro h
  simp [run_with_timeout] at h

/-- C4 (amended): every triple returned by `_run_with_timeout` satisfies
exactly one of: success (a result is present, `timed_out` is false, no
error), timeout (`timed_out` is true, no result, and the error slot holds
the synthesized `TimeoutError` — not `None` as the original claim said),
or operation error (no result, `timed_out` false, the raised exception in
the error slot); the three cases are mutually exclusive. -/
theorem c4_amended {α : Type} (cfg : Config) (op : OpBehavior α) (st : ExplorerState)
    (r : Option α) (t : Bool) (e : Option Exc) (st' : ExplorerState)
    (h : run_with_timeout cfg op st = ((r, t, e), st')) :
    ((((∃ v, r = some v) ∧ t = false ∧ e = none) ∨
      (r = none ∧ t = true ∧ ∃ m, e = some (Exc.timeoutError m)) ∨
      (r = none ∧ t = false ∧ e ≠ none)) ∧
     ¬(((∃ v, r = some v) ∧ t = false ∧ e = none) ∧
       (r = none ∧ t = true ∧ ∃ m, e = some (Exc.timeoutError m))) ∧
     ¬(((∃ v, r = some v) ∧ t = false ∧ e = none) ∧
       (r = none ∧ t = false ∧ e ≠ none)) ∧
     ¬((r = none ∧ t = true ∧ ∃ m, e = some (Exc.timeoutError m)) ∧
       (r = none ∧ t = false ∧ e ≠ none))) := by
  cases op <;> simp [run_with_timeout] at h <;>
    obtain ⟨⟨h1, h2, h3⟩, h4⟩ := h <;> subst h1 <;> subst h2 <;> subst h3 <;> simp

/-- C4 amended witness: the success case at a concrete input. -/
theorem c4_amended_witness :
    run_with_timeout {} (OpBehavior.completes (42 : Nat)) {} =
      ((some 42, false, none), {}) ∧
    ((((∃ v, (some (42 : Nat)) = some v) ∧ false = false ∧ (none : Option Exc) = none) ∨
      ((some (42 : Nat)) = none ∧ false = true ∧ ∃ m, (none : Option Exc) = some (Exc.timeoutError m)) ∨
      ((some (42 : Nat)) = none ∧ false = false ∧ (none : Option Exc) ≠ none)) ∧
     ¬((((∃ v, (some (42 : Nat)) = some v) ∧ false = false ∧ (none : Option Exc) = none) ∧
       ((some (42 : Nat)) = none ∧ false = true ∧ ∃ m, (none : Option Exc) = some (Exc.timeoutError m)))) ∧
     ¬((((∃ v, (some (42 : Nat)) = some v) ∧ false = false ∧ (none : Option Exc) = none) ∧
       ((some (42 : Nat)) = none ∧ false = false ∧ (none : Option Exc) ≠ none))) ∧
     ¬((((some (42 : Nat)) = none ∧ false = true ∧ ∃ m, (none : Option Exc) = some (Exc.timeoutError m)) ∧
       ((some (42 : Nat)) = none ∧ false = false ∧ (none : Option Exc) ≠ none)))) :=
  ⟨rfl, c4_amended {} (OpBehavior.completes (42 : Nat)) {} (some 42) false none {} rfl⟩

unseal describe_entries process_collection process_docs process_subcols in
/-- C2 counterexample: a document-sampling call that raises
`PermissionDenied` is reported inline as the distinct permission marker,
but — contrary to the claim — the generic error counter IS incremented:
`_run_with_timeout` counts every raised exception (including
`PermissionDenied`) in `stats["errors"]` before `_safe_stream_collection`
re-raises it for the special-case marker. -/
theorem c2_counterexample :
    (process_collection { include_stats := false } permStore "secure_collection" 0 {}).1 =
      ["### Collection: `secure_collection`",
       "  *Permission denied when accessing documents*"] ∧
    (ExplorerState.stats {}).errors = 0 ∧
    (process_collection { include_stats := false } permStore "secure_collection" 0 {}).2.stats.errors = 1 := by
  refine ⟨?_, rfl, ?_⟩ <;> decide

/-- C2 (amended): a permission-denied document-sampling failure is
reported inline as the distinct permission marker and does not abort the
collection header, but the generic error counter is incremented once (by
`_run_with_timeout`'s blanket `except Exception` branch) before the
exception is re-raised for its special handling. -/
theorem c2_amended (cfg : Config) (store : Store) (path : String) (level : Nat)
    (st : ExplorerState) (msg : String)
    (h1 : path ∉ st.processed_paths) (h2 : level < cfg.max_depth)
    (h3 : cfg.include_stats = false)
    (h4 : (store path).sampleDocs = OpBehavior.raises (Exc.permissionDenied msg)) :
    process_collection cfg store path level st =
      (["### Collection: `" ++ path ++ "`",
        indent (level + 1) ++ "*Permission denied when accessing documents*"],
       { st with
         stats.collections := st.stats.collections + 1
         stats.errors := st.stats.errors + 1
         processed_paths := path :: st.processed_paths
         collection_tree := setAssoc st.collection_tree path ⟨0, "unknown"⟩ }) := by
  rw [process_collection]
  rw [if_neg (by push_neg; exact ⟨h1, h2⟩)]
  simp [h3, h4, safe_stream_collection, run_with_timeout, Exc.isPermissionDenied]

unseal describe_entries process_collection process_docs process_subcols in
/-- C2 amended witness: the permission-denied store at concrete input. -/
theorem c2_amended_witness :
    "secure_collection" ∉ ([] : List String) ∧ (0 : Nat) < 5 ∧
    process_collection { include_stats := false } permStore "secure_collection" 0 {} =
      (["### Collection: `" ++ "secure_collection" ++ "`",
        indent 1 ++ "*Permission denied when accessing documents*"],
       { ({} : ExplorerState) with
         stats.collections := 1
         stats.errors := 1
         processed_paths := ["secure_collection"]
         collection_tree := setAssoc [] "secure_collection" ⟨0, "unknown"⟩ }) :=
  ⟨by decide, by decide,
   c2_amended { include_stats := false } permStore "secure_collection" 0 {}
     "403 Missing or insufficient permissions." (by decide) (by decide) rfl rfl⟩

unseal describe_entries process_collection process_docs process_subcols in
/-- C3 counterexample: when the document-sample fetch stalls past the
deadline, `_safe_stream_collection` swallows the timeout and returns `[]`,
so `process_collection` emits `*No documents found*` — not a timeout
marker — even though the timeout counter shows the fetch timed out.  The
`*Timed out when accessing documents: ...*` marker (the code's only
timeout marker for document access) does not appear. -/
theorem c3_counterexample :
    (process_collection { include_stats := false } stallStore "c" 0 {}).1 =
      ["### Collection: `c`", "*No documents found*"] ∧
    (process_collection { include_stats := false } stallStore "c" 0 {}).2.stats.timeouts = 1 ∧
    "*Timed out when accessing documents: Operation timed out after 30 seconds*" ∉
      (process_collection { include_stats := false } stallStore "c" 0 {}).1 := by
  refine ⟨?_, ?_, ?_⟩ <;> decide

/-- C3 (amended): when the bounded document-sample fetch times out,
`process_collection` emits the collection header followed by the
`*No documents found*` marker (the timeout is visible only in the
timeouts counter), and returns that accumulated output. -/
theorem c3_amended (cfg : Config) (store : Store) (path : String) (level : Nat)
    (st : ExplorerState)
    (h1 : path ∉ st.processed_paths) (h2 : level < cfg.max_depth)
    (h3 : (store path).sampleDocs = OpBehavior.stalls) :
    ∃ sfx st',
      process_collection cfg store path level st =
        (["### Collection: `" ++ path ++ "`" ++ sfx, "*No documents found*"], st') ∧
      st.stats.timeouts < st'.stats.timeouts := by
  rw [process_collection]
  rw [if_neg (by push_neg; exact ⟨h1, h2⟩)]
  by_cases hs : cfg.include_stats
  · rcases hcd : (store path).countDocs with l | _ | e
    · simp [hs, hcd, h3, safe_stream_collection, run_with_timeout]
      exact ⟨_, _, ⟨rfl, rfl⟩, by (try simp) <;> omega⟩
    · simp [hs, hcd, h3, safe_stream_collection, run_with_timeout]
      exact ⟨"", _, ⟨by simp, rfl⟩, by (try simp) <;> omega⟩
    · simp [hs, hcd, h3, safe_stream_collection, run_with_timeout]
      exact ⟨"", _, ⟨by simp, rfl⟩, by (try simp) <;> omega⟩
  · simp only [Bool.not_eq_true] at hs
    simp [hs, h3, safe_stream_collection, run_with_timeout]
    exact ⟨"", _, ⟨by simp, rfl⟩, by (try simp) <;> omega⟩

unseal describe_entries process_collection process_docs process_subcols in
/-- C3 amended witness: the stalling store at a concrete input. -/
theorem c3_amended_witness :
    "c" ∉ ([] : List String) ∧ (0 : Nat) < 5 ∧
    (∃ sfx st',
      process_collection { include_stats := false } stallStore "c" 0 {} =
        (["### Collection: `" ++ "c" ++ "`" ++ sfx, "*No documents found*"], st') ∧
      (ExplorerState.stats {}).timeouts < st'.stats.timeouts) :=
  ⟨by decide, by decide,
   c3_amended { include_stats := false } stallStore "c" 0 {} (by decide) (by decide) rfl⟩

unseal describe_entries process_collection process_docs process_subcols in
/-- C9 counterexample: a sampled document whose data is empty is skipped
by `continue` BEFORE the child-collection request, so no such request is
made for it.  Here the single sampled document has empty data and a
stalling child-collection listing at `level = 0 < max_depth - 1`; had the
request been made through the timeout guard, the timeouts counter would
be 1 and a timeout marker would appear — instead the output is just the
collection header and the counter stays 0. -/
theorem c9_counterexample :
    (process_collection { include_stats := false } emptyDocStore "c" 0 {}).1 =
      ["### Collection: `c`"] ∧
    (process_collection { include_stats := false } emptyDocStore "c" 0 {}).2.stats.timeouts = 0 ∧
    (0 : Nat) < 5 - 1 := by
  refine ⟨?_, ?_, ?_⟩ <;> decide

/-- C9 (amended): when `level < max_depth - 1`, `process_collection`
requests the child collections of each sampled document WITH NON-EMPTY
DATA via the timeout guard (documents with empty data are skipped
entirely); a timeout or error on that request is reported inline as a
marker under that document — visible in the timeouts/errors counter —
and does not abort the parent document (its header and field lines
stand) or the sibling documents (`rest` is still processed). -/
theorem c9_amended (cfg : Config) (store : Store) (path : String) (level : Nat)
    (doc : DocSnapshot) (rest : List DocSnapshot) (st : ExplorerState)
    (hlev : level < cfg.max_depth - 1) (hdata : doc.data ≠ []) :
    (doc.subcollections = OpBehavior.stalls →
      process_docs cfg store path level (doc :: rest) st =
        (let st1 : ExplorerState := { st with
            stats.documents := st.stats.documents + 1
            stats.fields := st.stats.fields + (describe_fields cfg doc.data (level + 2)).2
            stats.timeouts := st.stats.timeouts + 1 }
         let tail := process_docs cfg store path level rest st1
         (("#### Document: `" ++ doc.id ++ "`") ::
            ((describe_fields cfg doc.data (level + 2)).1 ++
              "*Timed out when fetching subcollections*" :: tail.1), tail.2))) ∧
    (∀ e, doc.subcollections = OpBehavior.raises e →
      process_docs cfg store path level (doc :: rest) st =
        (let st1 : ExplorerState := { st with
            stats.documents := st.stats.documents + 1
            stats.fields := st.stats.fields + (describe_fields cfg doc.data (level + 2)).2
            stats.errors := st.stats.errors + 1 }
         let tail := process_docs cfg store path level rest st1
         (("#### Document: `" ++ doc.id ++ "`") ::
            ((describe_fields cfg doc.data (level + 2)).1 ++
              ("*Error fetching subcollections: " ++ e.str ++ "*") :: tail.1), tail.2))) := by
  constructor
  · intro hsub
    rw [process_docs]
    simp [hdata, hlev, hsub, run_with_timeout]
  · intro e hsub
    rw [process_docs]
    simp [hdata, hlev, hsub, run_with_timeout]

unseal describe_entries process_collection process_docs process_subcols in
/-- C9 amended witness: one document with data and a stalling
child-collection listing, at concrete input. -/
theorem c9_amended_witness :
    (0 : Nat) < 5 - 1 ∧ ([("f", Value.integer 1)] : List (String × Value)) ≠ [] ∧
    process_docs {} slowSubcolStore "c" 0 [⟨"d", [("f", .integer 1)], .stalls⟩] {} =
      (["#### Document: `d`", "    - `f` (integer)",
        "*Timed out when fetching subcollections*"],
       { stats := { documents := 1, fields := 1, timeouts := 1 } }) :=
  ⟨by decide, by simp, by
    rw [(c9_amended {} slowSubcolStore "c" 0 ⟨"d", [("f", .integer 1)], .stalls⟩ [] {}
          (by decide) (by simp)).1 rfl]
    decide⟩

/-- The sampling loop of `describe_type` inspects exactly the first `n`
elements: `describe_prefix` is `map` over `take`. -/
theorem describe_prefix_eq_map_take (cfg : Config) :
    ∀ (l : List Value) (n : Nat),
      describe_prefix cfg l n = (l.take n).map (describe_type cfg) := by
  intro l
  induction l with
  | nil => intro n; cases n <;> rfl
  | cons v vs ih =>
    intro n
    cases n with
    | zero => rfl
    | succ m => simp [ describe_prefix, ih]

theorem charListLe_total : ∀ a b, charListLe a b = true ∨ charListLe b a = true := by
  intro a
  induction a with
  | nil => intro b; left; rfl
  | cons c cs ih =>
    intro b
    cases b with
    | nil => right; rfl
    | cons d ds =>
      simp only [charListLe]
      rcases Nat.lt_trichotomy c.toNat d.toNat with h | h | h
      · left; simp [h]
      · have h1 : ¬ c.toNat < d.toNat := by omega
        have h2 : ¬ d.toNat < c.toNat := by omega
        rcases ih ds with h3 | h3 <;> [left; right] <;> simp [h1, h2, h3]
      · right; simp [h]

theorem charListLe_trans :
    ∀ a b c, charListLe a b = true → charListLe b c = true → charListLe a c = true := by
  intro a
  induction a with
  | nil => intro b c _ _; rfl
  | cons x xs ih =>
    intro b c hab hbc
    cases b with
    | nil => simp [charListLe] at hab
    | cons y ys =>
      cases c with
      | nil => simp [charListLe] at hbc
      | cons z zs =>
        simp only [charListLe] at hab hbc ⊢
        split_ifs at hab hbc ⊢ <;>
          first
            | rfl
            | (exact ih ys zs hab hbc)
            | (exfalso; omega)
            | simp_all
            | omega

instance : IsTotal String (fun a b => pyLe a b = true) :=
  ⟨fun a b => charListLe_total a.data b.data⟩

instance : IsTrans String (fun a b => pyLe a b = true) :=
  ⟨fun a b c => charListLe_trans a.data b.data c.data⟩

/-- `sortedSet` sorts ascending by code-point order. -/
theorem sortedSet_sorted (l : List String) :
    (sortedSet l).Sorted (fun a b => pyLe a b = true) :=
  List.sorted_insertionSort _ _

/-- `sortedSet` never contains duplicates. -/
theorem sortedSet_nodup (l : List String) : (sortedSet l).Nodup :=
  ((List.perm_insertionSort _ l.dedup).nodup_iff).mpr (List.nodup_dedup l)

/-- `sortedSet` keeps exactly the members of its input. -/
theorem sortedSet_mem (l : List String) (s : String) : s ∈ sortedSet l ↔ s ∈ l := by
  unfold sortedSet
  rw [(List.perm_insertionSort _ l.dedup).mem_iff, List.mem_dedup]

/-- Characterization of `describe_type` on non-empty arrays with sampling
enabled: the result is determined by the sorted deduplicated labels of
the first `min(len, array_sample_size)` elements. -/
theorem describe_type_array (cfg : Config) (hs : cfg.sample_arrays = true)
    (l : List Value) (hne : l ≠ []) :
    describe_type cfg (Value.array l) =
      (match sortedSet ((l.take (min l.length cfg.array_sample_size)).map (describe_type cfg)) with
       | [t] => "array<" ++ t ++ ">"
       | ts => "array<mixed:" ++ String.intercalate "," ts ++ ">") := by
  cases l with
  | nil => exact absurd rfl hne
  | cons v vs =>
    simp only [describe_type, hs, if_true, describe_prefix_eq_map_take]

/-- C6: for non-empty arrays with sampling enabled: (empty arrays yield
`array<?>`;) the result inspects only the first
`min(len, array_sample_size)` elements — two same-length arrays agreeing
on their first `array_sample_size` elements get the same label, so
changing elements beyond that index never changes the result; and the
label is `array<T>` when the inspected elements share exactly one label,
otherwise `array<mixed:...>` over the deduplicated, code-point-sorted,
comma-joined inspected labels. -/
theorem c6_array_sampling (cfg : Config) (l l' : List Value)
    (hs : cfg.sample_arrays = true) :
    (describe_type cfg (Value.array []) = "array<?>") ∧
    (l.length = l'.length →
      l.take cfg.array_sample_size = l'.take cfg.array_sample_size →
      describe_type cfg (Value.array l) = describe_type cfg (Value.array l')) ∧
    (l ≠ [] →
      ∃ ts : List String,
        ts.Sorted (fun a b => pyLe a b = true) ∧ ts.Nodup ∧
        (∀ s, s ∈ ts ↔
          s ∈ (l.take (min l.length cfg.array_sample_size)).map (describe_type cfg)) ∧
        ((∃ t, ts = [t] ∧ describe_type cfg (Value.array l) = "array<" ++ t ++ ">") ∨
         ((¬ ∃ t, ts = [t]) ∧ describe_type cfg (Value.array l) =
            "array<mixed:" ++ String.intercalate "," ts ++ ">"))) := by
  refine ⟨rfl, ?_, ?_⟩
  · intro hlen htake
    cases l with
    | nil => cases l' with
      | nil => rfl
      | cons w ws => simp at hlen
    | cons v vs =>
      cases l' with
      | nil => simp at hlen
      | cons w ws =>
        rw [describe_type_array cfg hs _ (by simp), describe_type_array cfg hs _ (by simp)]
        have hmin : min (v :: vs).length cfg.array_sample_size =
            min (w :: ws).length cfg.array_sample_size := by rw [hlen]
        have htk : (v :: vs).take (min (v :: vs).length cfg.array_sample_size) =
            (w :: ws).take (min (w :: ws).length cfg.array_sample_size) := by
          rw [← hmin]
          have h1 : (v :: vs).take (min (v :: vs).length cfg.array_sample_size) =
              ((v :: vs).take cfg.array_sample_size).take (min (v :: vs).length cfg.array_sample_size) := by
            rw [List.take_take, Nat.min_comm (min _ _) _,
                Nat.min_eq_right (Nat.min_le_right _ _)]
          have h2 : (w :: ws).take (min (v :: vs).length cfg.array_sample_size) =
              ((w :: ws).take cfg.array_sample_size).take (min (v :: vs).length cfg.array_sample_size) := by
            rw [List.take_take, Nat.min_comm (min _ _) _,
                Nat.min_eq_right (Nat.min_le_right _ _)]
          rw [h1, h2, htake]
        rw [htk]
  · intro hne
    rw [describe_type_array cfg hs l hne]
    refine ⟨sortedSet ((l.take (min l.length cfg.array_sample_size)).map (describe_type cfg)),
      sortedSet_sorted _, sortedSet_nodup _, fun s => sortedSet_mem _ s, ?_⟩
    rcases hss : sortedSet ((l.take (min l.length cfg.array_sample_size)).map (describe_type cfg)) with _ | ⟨t, _ | ⟨u, us⟩⟩
    · right
      refine ⟨?_, rfl⟩
      rintro ⟨t, ht⟩
      simp at ht
    · left
      exact ⟨t, rfl, rfl⟩
    · right
      refine ⟨?_, rfl⟩
      rintro ⟨x, hx⟩
      simp at hx

/-- C6 witness: two four-element arrays agreeing on the first three
elements (the default sample size) and differing at index 3. -/
theorem c6_array_sampling_witness :
    (Config.sample_arrays {} = true) ∧
    ((describe_type {} (Value.array []) = "array<?>") ∧
     (([Value.integer 1, Value.string "x", Value.boolean true, Value.null] : List Value).length =
        ([Value.integer 1, Value.string "x", Value.boolean true, Value.timestamp] : List Value).length →
      ([Value.integer 1, Value.string "x", Value.boolean true, Value.null] : List Value).take (Config.array_sample_size {}) =
        ([Value.integer 1, Value.string "x", Value.boolean true, Value.timestamp] : List Value).take (Config.array_sample_size {}) →
      describe_type {} (Value.array [Value.integer 1, Value.string "x", Value.boolean true, Value.null]) =
        describe_type {} (Value.array [Value.integer 1, Value.string "x", Value.boolean true, Value.timestamp])) ∧
     (([Value.integer 1, Value.string "x", Value.boolean true, Value.null] : List Value) ≠ [] →
      ∃ ts : List String,
        ts.Sorted (fun a b => pyLe a b = true) ∧ ts.Nodup ∧
        (∀ s, s ∈ ts ↔
          s ∈ (([Value.integer 1, Value.string "x", Value.boolean true, Value.null] : List Value).take
                (min ([Value.integer 1, Value.string "x", Value.boolean true, Value.null] : List Value).length
                  (Config.array_sample_size {}))).map (describe_type {})) ∧
        ((∃ t, ts = [t] ∧
            describe_type {} (Value.array [Value.integer 1, Value.string "x", Value.boolean true, Value.null]) =
              "array<" ++ t ++ ">") ∨
         ((¬ ∃ t, ts = [t]) ∧
            describe_type {} (Value.array [Value.integer 1, Value.string "x", Value.boolean true, Value.null]) =
              "array<mixed:" ++ String.intercalate "," ts ++ ">")))) :=
  ⟨rfl,
   c6_array_sampling {}
     [Value.integer 1, Value.string "x", Value.boolean true, Value.null]
     [Value.integer 1, Value.string "x", Value.boolean true, Value.timestamp] rfl⟩

/-- The field counter of `describe_fields` is incremented exactly once
per emitted line, nested lines included. -/
theorem describe_entries_snd (cfg : Config) :
    ∀ (entries : List (String × Value)) (level : Nat),
      (describe_entries cfg entries level).2 = (describe_entries cfg entries level).1.length := by
  intro entries level
  induction entries, level using describe_entries.induct cfg with
  | case1 level => rw [describe_entries]; rfl
  | case2 key value rest level ih1 ih2 =>
    cases value <;> rw [describe_entries] <;> simp_all <;> omega

/-- Structure of the `describe_fields` output on a sorted entry list:
one line per key in order, then the recursive lines of a map value at the
next level, then the next sibling. -/
theorem describe_entries_fst (cfg : Config) :
    ∀ (entries : List (String × Value)) (level : Nat),
      (describe_entries cfg entries level).1 = entries.flatMap (fun kv =>
        (spaces (2 * level) ++ "- `" ++ kv.1 ++ "` (" ++ describe_type cfg kv.2 ++ ")") ::
        (match kv.2 with
         | Value.map m => (describe_entries cfg (sortByKey m) (level + 1)).1
         | _ => [])) := by
  intro entries level
  induction entries, level using describe_entries.induct cfg with
  | case1 level => rw [describe_entries]; rfl
  | case2 key value rest level ih1 ih2 =>
    cases value <;> rw [describe_entries] <;> simp_all

/-- C7: `describe_fields` iterates the map's entries in sorted-key order
and emits, for each key, exactly one field line of the form
`"  "*level ++ "- \x60name\x60 (type)"` (two spaces per nesting level),
followed — when the value is itself a map — by the recursion at
`level + 1` before the next sibling key; the fields counter is
incremented exactly once per emitted line; an empty map emits no lines
and increments nothing. -/
theorem c7_describe_fields (cfg : Config) (data : List (String × Value)) (level : Nat) :
    (describe_fields cfg [] level = ([], 0)) ∧
    ((describe_fields cfg data level).2 = (describe_fields cfg data level).1.length) ∧
    ((describe_fields cfg data level).1 =
      (sortByKey data).flatMap (fun kv =>
        (spaces (2 * level) ++ "- `" ++ kv.1 ++ "` (" ++ describe_type cfg kv.2 ++ ")") ::
        (match kv.2 with
         | Value.map m => (describe_fields cfg m (level + 1)).1
         | _ => []))) := by
  refine ⟨?_, describe_entries_snd cfg _ _, ?_⟩
  · unfold describe_fields
    rw [show sortByKey [] = [] from rfl, describe_entries]
  · unfold describe_fields
    rw [describe_entries_fst]

/-- Python's `str.split(sep)` for a single-character separator. -/
def splitChar (sep : Char) : List Char → List (List Char)
  | [] => [[]]
  | c :: rest =>
    if c = sep then [] :: splitChar sep rest
    else
      match splitChar sep rest with
      | [] => [[c]]
      | p :: ps => (c :: p) :: ps

/-- Substring occurrence test on character lists (Python's `pat in s`):
`pat` is a prefix of some suffix of `s`. -/
def listContains (pat : List Char) : List Char → Bool
  | [] => pat.isEmpty
  | c :: rest => pat.isPrefixOf (c :: rest) || listContains pat rest

/-- Python's `pat in s` substring test. -/
def pyIn (pat s : String) : Bool := listContains pat.data s.data

/-- Python's `str.strip()`: drop leading and trailing whitespace. -/
def pyStrip (s : String) : String :=
  ⟨((s.data.dropWhile Char.isWhitespace).reverse.dropWhile Char.isWhitespace).reverse⟩

/-- Python's `s.split(c)[i]`, as used by the JSON branch of
`export_to_file` (an out-of-range index would raise `IndexError` in
Python; on the lines the parser accepts the index is always in range). -/
def pySplitGet (s : String) (sep : Char) (i : Nat) : String :=
  ⟨(splitChar sep s.data).getD i []⟩

theorem listContains_iff (pat s : List Char) :
    listContains pat s = true ↔ pat <:+: s := by
  induction s with
  | nil =>
    simp [listContains, List.isEmpty_iff]
  | cons c rest ih =>
    simp only [listContains, Bool.or_eq_true, List.isPrefixOf_iff_prefix, ih,
      List.infix_cons_iff]

theorem splitChar_nonempty (sep : Char) (l : List Char) : splitChar sep l ≠ [] := by
  cases l with
  | nil => simp [splitChar]
  | cons c rest =>
    simp only [splitChar]
    split
    · simp
    · split <;> simp

theorem splitChar_no_sep (sep : Char) (l : List Char) (h : sep ∉ l) :
    splitChar sep l = [l] := by
  induction l with
  | nil => rfl
  | cons c rest ih =>
    simp only [List.mem_cons, not_or] at h
    rw [splitChar, if_neg (fun hc => h.1 hc.symm), ih h.2]

theorem splitChar_append (sep : Char) (a b : List Char) (ha : sep ∉ a) :
    splitChar sep (a ++ sep :: b) = a :: splitChar sep b := by
  induction a with
  | nil => simp [splitChar]
  | cons c rest ih =>
    simp only [List.mem_cons, not_or] at ha
    rw [List.cons_append, splitChar, if_neg (fun hc => ha.1 hc.symm), ih ha.2]



theorem not_contains_of_missing (c : Char) (pat s : List Char)
    (hc : c ∈ pat) (hs : c ∉ s) : listContains pat s = false := by
  by_contra h
  rw [Bool.not_eq_false, listContains_iff] at h
  exact hs (h.sublist.subset hc)

theorem contains_of_prefix (pat s : List Char) (h : pat <+: s) :
    listContains pat s = true := by
  rw [listContains_iff]
  exact h.isInfix

theorem bt_align : ∀ (Q x v y : List Char), '`' ∉ Q → '`' ∉ x →
    Q ++ '`' :: v = x ++ '`' :: y → Q = x ∧ v = y := by
  intro Q
  induction Q with
  | nil =>
    intro x v y _ hx h
    cases x with
    | nil => simpa using h
    | cons c x' =>
      simp only [List.nil_append, List.cons_append, List.cons.injEq] at h
      exact absurd (h.1 ▸ List.mem_cons_self c x') hx
  | cons q Q' ih =>
    intro x v y hQ hx h
    cases x with
    | nil =>
      simp only [List.cons_append, List.nil_append, List.cons.injEq] at h
      exact absurd (h.1 ▸ List.mem_cons_self q Q') hQ
    | cons c x' =>
      simp only [List.cons_append, List.cons.injEq] at h
      obtain ⟨rfl, h2⟩ := h
      obtain ⟨h3, h4⟩ := ih x' v y (fun hm => hQ (List.mem_cons_of_mem _ hm))
        (fun hm => hx (List.mem_cons_of_mem _ hm)) h2
      exact ⟨by rw [h3], h4⟩

theorem infix_bt (Q : List Char) (hQ : '`' ∉ Q) :
    ∀ (x y : List Char), '`' ∉ x → (Q ++ ['`']) <:+: (x ++ '`' :: y) →
      Q <:+ x ∨ (Q ++ ['`']) <:+: y := by
  intro x
  induction x with
  | nil =>
    intro y hx h
    obtain ⟨u, v, huv⟩ := h
    cases u with
    | nil =>
      simp only [List.nil_append, List.append_assoc, List.singleton_append] at huv
      cases Q with
      | nil => exact Or.inl List.nil_suffix
      | cons q Q'' =>
        simp only [List.cons_append, List.cons.injEq] at huv
        exact absurd (huv.1 ▸ List.mem_cons_self q Q'') hQ
    | cons d u' =>
      simp only [List.cons_append, List.nil_append, List.cons.injEq] at huv
      exact Or.inr ⟨u', v, huv.2⟩
  | cons c x' ih =>
    intro y hx h
    obtain ⟨u, v, huv⟩ := h
    have hc : c ≠ '`' := fun hcc => hx (hcc ▸ List.mem_cons_self c x')
    cases u with
    | nil =>
      simp only [List.nil_append, List.cons_append] at huv
      cases Q with
      | nil =>
        simp only [List.nil_append, List.singleton_append, List.cons.injEq] at huv
        exact absurd huv.1.symm hc
      | cons q Q'' =>
        simp only [List.cons_append, List.cons.injEq, List.append_assoc,
          List.singleton_append] at huv
        obtain ⟨rfl, h2⟩ := huv
        obtain ⟨h3, _⟩ := bt_align Q'' x' v y
          (fun hm => hQ (List.mem_cons_of_mem _ hm))
          (fun hm => hx (List.mem_cons_of_mem _ hm)) h2
        exact Or.inl (by rw [h3])
    | cons d u' =>
      simp only [List.cons_append, List.cons.injEq] at huv
      rcases ih y (fun hm => hx (List.mem_cons_of_mem _ hm)) ⟨u', v, huv.2⟩ with h | h
      · exact Or.inl (h.trans (List.suffix_cons c x'))
      · exact Or.inr h

/-- State of the line parser in the JSON branch of `export_to_file`
(`src/main.py` lines 604–624): the structured data built so far plus the
current collection / document context. -/
structure PState where
  collections_data : List (String × List (String × List (String × String))) := []
  current_collection : Option String := none
  current_document : Option String := none
  deriving DecidableEq, Repr

/-- Python truthiness of the `current_collection` / `current_document`
variables: `None` and the empty string are falsy. -/
def truthy : Option String → Bool
  | some s => !s.data.isEmpty
  | none => false

/-- Python's in-place update `d[k] = f(d[k])` on an insertion-ordered
dict (no-op when the key is absent — Python would raise `KeyError`, which
cannot happen for the parser's accesses because `current_collection` /
`current_document` always name existing entries). -/
def updateAssoc {α : Type} (l : List (String × α)) (k : String) (f : α → α) :
    List (String × α) :=
  l.map (fun p => if p.1 == k then (k, f p.2) else p)

/-- One iteration of the `for line in output.split("\n")` loop of
`export_to_file`'s JSON branch: collection headers create a fresh entry
and set the current collection (without resetting the current document);
document headers (when a collection is current) create a fresh document
entry; field bullets (when both are current) append the parsed
name/type pair. -/
def parseStep (ps : PState) (line : String) : PState :=
  if pyIn "### Collection: `" line then
    let collection_name := pySplitGet line '`' 1
    { ps with
      collections_data := setAssoc ps.collections_data collection_name []
      current_collection := some collection_name }
  else if pyIn "#### Document: `" line && truthy ps.current_collection then
    let doc_id := pySplitGet line '`' 1
    match ps.current_collection with
    | some c =>
      { ps with
        collections_data :=
          updateAssoc ps.collections_data c (fun docs => setAssoc docs doc_id [])
        current_document := some doc_id }
    | none => ps
  else if pyIn "- `" line && truthy ps.current_collection &&
      truthy ps.current_document then
    let field_info := pySplitGet (pyStrip line) '`' 1
    let field_type := pySplitGet ⟨(splitChar '(' line.data).getD 1 []⟩ ')' 0
    match ps.current_collection, ps.current_document with
    | some c, some d =>
      { ps with
        collections_data :=
          updateAssoc ps.collections_data c (fun docs =>
            updateAssoc docs d (fun fields => fields ++ [(field_info, field_type)])) }
    | _, _ => ps
  else ps

/-- The whole parsing loop of `export_to_file`'s JSON branch over a list
of report lines. -/
def parseLines (lines : List String) (ps : PState) : PState :=
  lines.foldl parseStep ps

/-- The per-document name/type pairs recorded by `describe_fields` during
a traversal (the `(key, field_type)` of each emitted field line, in
emission order, nested map entries included). -/
def field_pairs (cfg : Config) : List (String × Value) → List (String × String)
  | [] => []
  | (key, value) :: rest =>
    (key, describe_type cfg value) ::
      ((match value with
        | .map m => field_pairs cfg (sortByKey m)
        | _ => []) ++ field_pairs cfg rest)
  termination_by data => sizeOf data
  decreasing_by
  all_goals (try simp only [sizeOf_sortByKey]); (try simp); (try omega)

/-- The recorded name/type pairs of one document's data. -/
def doc_pairs (cfg : Config) (data : List (String × Value)) : List (String × String) :=
  field_pairs cfg (sortByKey data)

/-- Every line of `describe_fields` output is a field bullet built from
the corresponding recorded pair at some indentation width. -/
theorem describe_entries_forall2 (cfg : Config) :
    ∀ (entries : List (String × Value)) (level : Nat),
      List.Forall₂ (fun line pr =>
          ∃ n, line = spaces n ++ "- `" ++ pr.1 ++ "` (" ++ pr.2 ++ ")")
        (describe_entries cfg entries level).1 (field_pairs cfg entries) := by
  intro entries level
  induction entries, level using describe_entries.induct cfg with
  | case1 level =>
    rw [describe_entries, field_pairs]
    exact List.Forall₂.nil
  | case2 key value rest level ih1 ih2 =>
    cases value <;> simp only [describe_entries, field_pairs] <;>
      refine List.Forall₂.cons ⟨2 * level, rfl⟩ (List.rel_append ?_ ih2) <;>
      first
        | simpa using ih1
        | exact List.Forall₂.nil

/-- Characters that keep report fragments parseable by `export_to_file`'s
line parser: no backtick, parenthesis, hash, or newline. -/
def cleanChar (c : Char) : Bool :=
  !(c = '`' || c = '(' || c = ')' || c = '#' || c = '\n')

/-- A string free of parser-colliding characters. -/
def cleanStr (s : String) : Bool := s.data.all cleanChar

theorem cleanStr_not_mem {s : String} (h : cleanStr s = true) {c : Char}
    (hc : cleanChar c = false) : c ∉ s.data := by
  intro hmem
  have := List.all_eq_true.mp h c hmem
  rw [this] at hc
  exact Bool.true_eq_false.mp hc

theorem not_suffix_of_missing {c : Char} {pat s : List Char}
    (hc : c ∈ pat) (hs : c ∉ s) : ¬ pat <:+ s := fun h =>
  hs (h.sublist.subset hc)

theorem not_contains_pat (Q x b c : List Char)
    (hQ : '`' ∉ Q) (hx : '`' ∉ x) (hb : '`' ∉ b) (hc : '`' ∉ c)
    (h1 : ¬ Q <:+ x) (h2 : ¬ Q <:+ b) :
    listContains (Q ++ ['`']) (x ++ '`' :: (b ++ '`' :: c)) = false := by
  by_contra h
  rw [Bool.not_eq_false, listContains_iff] at h
  rcases infix_bt Q hQ x _ hx h with h | h
  · exact h1 h
  · rcases infix_bt Q hQ b c hb h with h | h
    · exact h2 h
    · exact hc (h.sublist.subset (by simp))

/-- A line without backticks matches none of the three parser markers. -/
theorem parseStep_inert (ps : PState) (line : String) (h : '`' ∉ line.data) :
    parseStep ps line = ps := by
  unfold parseStep
  rw [show pyIn "### Collection: `" line = false from
        not_contains_of_missing '`' _ _ (by decide) h,
      show pyIn "#### Document: `" line = false from
        not_contains_of_missing '`' _ _ (by decide) h,
      show pyIn "- `" line = false from
        not_contains_of_missing '`' _ _ (by decide) h]
  simp

/-- Parsing a collection header line: a fresh `{"documents": {}}` entry is
created (replacing any existing one) and the current collection becomes
the parsed path. -/
theorem parseStep_collection (ps : PState) (path sfx : String)
    (hbt : '`' ∉ path.data) :
    parseStep ps ("### Collection: `" ++ path ++ "`" ++ sfx) =
      { ps with
        collections_data := setAssoc ps.collections_data path []
        current_collection := some path } := by
  have hdata : ("### Collection: `" ++ path ++ "`" ++ sfx).data =
      "### Collection: ".data ++ '`' :: (path.data ++ '`' :: sfx.data) := by
    simp [String.data_append]
  unfold parseStep
  rw [show pyIn "### Collection: `" ("### Collection: `" ++ path ++ "`" ++ sfx) = true by
    unfold pyIn
    rw [hdata]
    exact contains_of_prefix _ _ ⟨path.data ++ '`' :: sfx.data, by simp⟩]
  simp only [if_true]
  congr 1
  · unfold pySplitGet
    rw [hdata, splitChar_append _ _ _ (by decide), splitChar_append _ _ _ hbt]
    rfl
  · unfold pySplitGet
    rw [hdata, splitChar_append _ _ _ (by decide), splitChar_append _ _ _ hbt]
    rfl



theorem string_ne_empty_data {c : String} (hc : c ≠ "") : c.data ≠ [] := by
  intro h
  exact hc (String.ext h)

theorem truthy_some {c : String} (hc : c ≠ "") : truthy (some c) = true := by
  simp [truthy, List.isEmpty_iff, string_ne_empty_data hc]

/-- Parsing a document header line under a current collection: a fresh
`{"fields": []}` entry is created for the document in the current
collection and the current document becomes the parsed id. -/
theorem parseStep_document (ps : PState) (id c : String)
    (hid_bt : '`' ∉ id.data) (hid_h : '#' ∉ id.data)
    (hcur : ps.current_collection = some c) (hc : c ≠ "") :
    parseStep ps ("#### Document: `" ++ id ++ "`") =
      { ps with
        collections_data :=
          updateAssoc ps.collections_data c (fun docs => setAssoc docs id [])
        current_document := some id } := by
  have hdata : ("#### Document: `" ++ id ++ "`").data =
      "#### Document: ".data ++ '`' :: (id.data ++ '`' :: []) := by
    simp [String.data_append]
  have hb1 : pyIn "### Collection: `" ("#### Document: `" ++ id ++ "`") = false := by
    unfold pyIn
    rw [hdata, show "### Collection: `".data = "### Collection: ".data ++ ['`'] from rfl]
    exact not_contains_pat _ _ _ _ (by decide) (by decide) hid_bt (by decide)
      (not_suffix_of_missing (c := 'C') (by decide) (by decide))
      (not_suffix_of_missing (c := '#') (by decide) hid_h)
  have hb2 : pyIn "#### Document: `" ("#### Document: `" ++ id ++ "`") = true := by
    unfold pyIn
    rw [hdata]
    exact contains_of_prefix _ _ ⟨id.data ++ '`' :: [], by simp⟩
  unfold parseStep
  rw [hb1, hb2]
  simp only [Bool.false_eq_true, if_false, hcur, truthy_some hc, Bool.and_self, if_true]
  congr 1
  · unfold pySplitGet
    rw [hdata, splitChar_append _ _ _ (by decide), splitChar_append _ _ _ hid_bt]
    rfl
  · unfold pySplitGet
    rw [hdata, splitChar_append _ _ _ (by decide), splitChar_append _ _ _ hid_bt]
    rfl



theorem dropWhile_replicate_space (n : Nat) (l : List Char) :
    (List.replicate n ' ' ++ l).dropWhile Char.isWhitespace =
      l.dropWhile Char.isWhitespace := by
  induction n with
  | zero => rfl
  | succ m ih => rw [List.replicate_succ, List.cons_append, List.dropWhile_cons_of_pos (by decide), ih]

theorem strip_of_clean_ends (n : Nat) (a b : Char) (mid : List Char)
    (ha : a.isWhitespace = false) (hb : b.isWhitespace = false) :
    ((((List.replicate n ' ' ++ a :: (mid ++ [b])).dropWhile
        Char.isWhitespace).reverse.dropWhile Char.isWhitespace).reverse) =
      a :: (mid ++ [b]) := by
  rw [dropWhile_replicate_space, List.dropWhile_cons_of_neg (by simp [ha])]
  rw [show (a :: (mid ++ [b])).reverse = b :: (mid.reverse ++ [a]) by simp]
  rw [List.dropWhile_cons_of_neg (by simp [hb])]
  simp

/-- Parsing a field bullet line under a current collection and document:
the parsed name/type pair is appended to the current document's fields. -/
theorem parseStep_field (ps : PState) (c d k t : String) (n : Nat)
    (hk_bt : '`' ∉ k.data) (hk_par : '(' ∉ k.data) (hk_h : '#' ∉ k.data)
    (ht_bt : '`' ∉ t.data) (ht_par : '(' ∉ t.data) (ht_rpar : ')' ∉ t.data)
    (hcurc : ps.current_collection = some c) (hc : c ≠ "")
    (hcurd : ps.current_document = some d) (hd : d ≠ "") :
    parseStep ps (spaces n ++ "- `" ++ k ++ "` (" ++ t ++ ")") =
      { ps with
        collections_data := updateAssoc ps.collections_data c (fun docs =>
          updateAssoc docs d (fun fields => fields ++ [(k, t)])) } := by
  set line := spaces n ++ "- `" ++ k ++ "` (" ++ t ++ ")" with hline
  have hx_bt : '`' ∉ List.replicate n ' ' ++ "- ".data := by
    intro h
    rcases List.mem_append.mp h with h | h
    · exact absurd (List.eq_of_mem_replicate h) (by decide)
    · revert h; decide
  have hx_h : '#' ∉ List.replicate n ' ' ++ "- ".data := by
    intro h
    rcases List.mem_append.mp h with h | h
    · exact absurd (List.eq_of_mem_replicate h) (by decide)
    · revert h; decide
  have hc0_bt : '`' ∉ " (".data ++ t.data ++ [')'] := by
    intro h
    rcases List.mem_append.mp h with h | h
    · rcases List.mem_append.mp h with h | h
      · revert h; decide
      · exact ht_bt h
    · revert h; decide
  have hdata : line.data =
      (List.replicate n ' ' ++ "- ".data) ++ '`' ::
        (k.data ++ '`' :: (" (".data ++ t.data ++ [')'])) := by
    simp [hline, String.data_append, spaces]
  have hb1 : pyIn "### Collection: `" line = false := by
    unfold pyIn
    rw [hdata, show "### Collection: `".data = "### Collection: ".data ++ ['`'] from rfl]
    exact not_contains_pat _ _ _ _ (by decide) hx_bt hk_bt hc0_bt
      (not_suffix_of_missing (c := '#') (by decide) hx_h)
      (not_suffix_of_missing (c := '#') (by decide) hk_h)
  have hb2 : pyIn "#### Document: `" line = false := by
    unfold pyIn
    rw [hdata, show "#### Document: `".data = "#### Document: ".data ++ ['`'] from rfl]
    exact not_contains_pat _ _ _ _ (by decide) hx_bt hk_bt hc0_bt
      (not_suffix_of_missing (c := '#') (by decide) hx_h)
      (not_suffix_of_missing (c := '#') (by decide) hk_h)
  have hb3 : pyIn "- `" line = true := by
    unfold pyIn
    rw [hdata]
    refine (listContains_iff _ _).mpr
      ⟨List.replicate n ' ', k.data ++ '`' :: (" (".data ++ t.data ++ [')']), ?_⟩
    simp
  have hstrip : pyStrip line = "- `" ++ k ++ "` (" ++ t ++ ")" := by
    apply String.ext
    show ((line.data.dropWhile Char.isWhitespace).reverse.dropWhile
      Char.isWhitespace).reverse = _
    have hcore : line.data = List.replicate n ' ' ++
        '-' :: ((" `".data ++ k.data ++ "` (".data ++ t.data) ++ [')']) := by
      simp [hline, String.data_append, spaces]
    rw [hcore, strip_of_clean_ends n '-' ')' _ (by decide) (by decide)]
    simp [String.data_append]
  have hname : pySplitGet (pyStrip line) '`' 1 = k := by
    rw [hstrip]
    unfold pySplitGet
    have : ("- `" ++ k ++ "` (" ++ t ++ ")").data =
        "- ".data ++ '`' :: (k.data ++ '`' :: (" (".data ++ t.data ++ [')'])) := by
      simp [String.data_append]
    rw [this, splitChar_append _ _ _ (by decide), splitChar_append _ _ _ hk_bt]
    rfl
  have htype : pySplitGet ⟨(splitChar '(' line.data).getD 1 []⟩ ')' 0 = t := by
    have hpar : line.data =
        (List.replicate n ' ' ++ "- `".data ++ k.data ++ "` ".data) ++ '(' ::
          (t.data ++ [')']) := by
      simp [hline, String.data_append, spaces]
    have hnopar : '(' ∉ List.replicate n ' ' ++ "- `".data ++ k.data ++ "` ".data := by
      intro h
      rcases List.mem_append.mp h with h | h
      · rcases List.mem_append.mp h with h | h
        · rcases List.mem_append.mp h with h | h
          · exact absurd (List.eq_of_mem_replicate h) (by decide)
          · revert h; decide
        · exact hk_par h
      · revert h; decide
    rw [hpar, splitChar_append _ _ _ hnopar]
    have hnopar2 : '(' ∉ t.data ++ [')'] := by
      intro h
      rcases List.mem_append.mp h with h | h
      · exact ht_par h
      · revert h; decide
    rw [show (splitChar '(' (t.data ++ [')'])) = [t.data ++ [')']] from
      splitChar_no_sep _ _ hnopar2]
    show pySplitGet ⟨t.data ++ [')']⟩ ')' 0 = t
    unfold pySplitGet
    rw [show (⟨t.data ++ [')']⟩ : String).data = t.data ++ ')' :: [] from rfl,
      splitChar_append _ _ _ ht_rpar]
    rfl
  unfold parseStep
  rw [hb1, hb2, hb3]
  simp only [Bool.false_eq_true, if_false, hcurc, hcurd, truthy_some hc, truthy_some hd,
    Bool.and_self, if_true]
  rw [hname, htype]
  simp

mutual

/-- `process_collection` with ghost instrumentation: along with the output
lines and the updated state it records, per sampled document with
non-empty data, the pair of the document id and the name/type pairs that
`describe_fields` recorded for it (`doc_pairs`).  The lines and state
coincide with `process_collection` (theorem `trav_projection`). -/
def trav_collection (cfg : Config) (store : Store) (path : String)
    (level : Nat) (st : ExplorerState) :
    List String × List (String × List (String × String)) × ExplorerState :=
  if path ∈ st.processed_paths ∨ cfg.max_depth ≤ level then ([], [], st)
  else
    let st := { st with processed_paths := path :: st.processed_paths }
    let st := { st with stats.collections := st.stats.collections + 1 }
    let (doc_count, doc_count_str, st) :=
      if cfg.include_stats then
        let ((docs, timed_out, error), st) :=
          run_with_timeout cfg (store path).countDocs st
        if timed_out then ((none : Option Nat), "unknown (timed out)", st)
        else
          match error with
          | some _ => (none, "unknown (error)", st)
          | none =>
            let n := (docs.getD []).length
            (some n, if 1000 ≤ n then toString n ++ "+" else toString n, st)
      else (none, "", st)
    let actual_doc_count := doc_count.getD 0
    let tree_entry : TreeInfo :=
      ⟨actual_doc_count, if doc_count.isSome then doc_count_str else "unknown"⟩
    let st := { st with
      collection_tree := setAssoc st.collection_tree path tree_entry }
    let collection_header := "### Collection: `" ++ path ++ "`" ++
      (if doc_count.isSome then " (" ++ doc_count_str ++ " documents)" else "")
    match safe_stream_collection cfg (store path).sampleDocs st with
    | (.error _, st) =>
      ([collection_header, indent (level + 1) ++ "*Permission denied when accessing documents*"],
       [], st)
    | (.ok docs, st) =>
      if docs.isEmpty then ([collection_header, "*No documents found*"], [], st)
      else
        let (docLines, recs, st) := trav_docs cfg store path level docs st
        (collection_header :: docLines, recs, st)
  termination_by (cfg.max_depth - level, 2, 0)

/-- Instrumented counterpart of `process_docs`. -/
def trav_docs (cfg : Config) (store : Store) (path : String) (level : Nat)
    (docs : List DocSnapshot) (st : ExplorerState) :
    List String × List (String × List (String × String)) × ExplorerState :=
  match docs with
  | [] => ([], [], st)
  | doc :: rest =>
    if doc.data.isEmpty then trav_docs cfg store path level rest st
    else
      let st := { st with stats.documents := st.stats.documents + 1 }
      let doc_header := "#### Document: `" ++ doc.id ++ "`"
      let (fieldLines, nfields) := describe_fields cfg doc.data (level + 2)
      let st := { st with stats.fields := st.stats.fields + nfields }
      let rec0 := (doc.id, doc_pairs cfg doc.data)
      if h : level < cfg.max_depth - 1 then
        let ((subcollections, timed_out, error), st) :=
          run_with_timeout cfg doc.subcollections st
        if timed_out then
          let (tailLines, recs, st) := trav_docs cfg store path level rest st
          (doc_header :: fieldLines ++
            "*Timed out when fetching subcollections*" :: tailLines,
           rec0 :: recs, st)
        else
          match error with
          | some e =>
            let (tailLines, recs, st) := trav_docs cfg store path level rest st
            (doc_header :: fieldLines ++
              ("*Error fetching subcollections: " ++ e.str ++ "*") :: tailLines,
             rec0 :: recs, st)
          | none =>
            let (subLines, subRecs, st) :=
              trav_subcols cfg store (path ++ "/" ++ doc.id) level
                (subcollections.getD []) st h
            let (tailLines, recs, st) := trav_docs cfg store path level rest st
            (doc_header :: fieldLines ++ subLines ++ tailLines,
             rec0 :: (subRecs ++ recs), st)
      else
        let (tailLines, recs, st) := trav_docs cfg store path level rest st
        (doc_header :: fieldLines ++ tailLines, rec0 :: recs, st)
  termination_by (cfg.max_depth - level, 1, docs.length)

/-- Instrumented counterpart of `process_subcols`. -/
def trav_subcols (cfg : Config) (store : Store) (docPath : String)
    (level : Nat) (subcols : List String) (st : ExplorerState)
    (h : level < cfg.max_depth - 1) :
    List String × List (String × List (String × String)) × ExplorerState :=
  match subcols with
  | [] => ([], [], st)
  | subcolId :: rest =>
    let (subLines, subRecs, st) :=
      trav_collection cfg store (docPath ++ "/" ++ subcolId) (level + 2) st
    let (restLines, restRecs, st) := trav_subcols cfg store docPath level rest st h
    (subLines ++ restLines, subRecs ++ restRecs, st)
  termination_by (cfg.max_depth - level, 0, subcols.length)
  decreasing_by
  · apply Prod.Lex.left; omega
  · apply Prod.Lex.right; apply Prod.Lex.right; simp only [List.length_cons]; omega

end




theorem trav_projection (cfg : Config) (store : Store) :
    (∀ path level st, process_collection cfg store path level st =
      ((trav_collection cfg store path level st).1,
       (trav_collection cfg store path level st).2.2)) ∧
    (∀ path level docs st, process_docs cfg store path level docs st =
      ((trav_docs cfg store path level docs st).1,
       (trav_docs cfg store path level docs st).2.2)) ∧
    (∀ docPath level subcols st h, process_subcols cfg store docPath level subcols st h =
      ((trav_subcols cfg store docPath level subcols st h).1,
       (trav_subcols cfg store docPath level subcols st h).2.2)) := by
  refine trav_collection.mutual_induct cfg store
    (fun path level st => process_collection cfg store path level st =
      ((trav_collection cfg store path level st).1,
       (trav_collection cfg store path level st).2.2))
    (fun path level docs st => process_docs cfg store path level docs st =
      ((trav_docs cfg store path level docs st).1,
       (trav_docs cfg store path level docs st).2.2))
    (fun docPath level subcols st h => process_subcols cfg store docPath level subcols st h =
      ((trav_subcols cfg store docPath level subcols st h).1,
       (trav_subcols cfg store docPath level subcols st h).2.2))
    ?_ ?_ ?_ ?_ ?_ ?_ ?_ ?_ ?_ ?_ ?_ ?_
  all_goals intros
  all_goals first
    | (rw [process_collection, trav_collection]; all_goals simp_all; done)
    | (rw [process_docs, trav_docs]; all_goals simp_all; done)
    | (rw [process_subcols, trav_subcols]; all_goals simp_all; done)
    | (rw [process_collection, trav_collection]; all_goals simp_all +zetaDelta;
       all_goals (split <;> first | rfl | omega | simp_all +zetaDelta); done)
    | (rw [process_docs, trav_docs];
       all_goals (split_ifs <;> first | omega | simp_all +zetaDelta); done)

/-- The keys of an insertion-ordered dict. -/
def keysOf {α : Type} (l : List (String × α)) : List String := l.map Prod.fst

/-- All documents of the parsed structure, flattened across collections in
order. -/
def flatDocs (cd : List (String × List (String × List (String × String)))) :
    List (String × List (String × String)) :=
  cd.flatMap Prod.snd

theorem parseLines_append (l1 l2 : List String) (ps : PState) :
    parseLines (l1 ++ l2) ps = parseLines l2 (parseLines l1 ps) :=
  List.foldl_append _ _ _ _

theorem parseLines_nil (ps : PState) : parseLines [] ps = ps := rfl

theorem setAssoc_fresh {α : Type} (l : List (String × α)) (k : String) (v : α)
    (h : k ∉ keysOf l) : setAssoc l k v = l ++ [(k, v)] := by
  unfold setAssoc
  rw [if_neg]
  intro hc
  rw [List.any_eq_true] at hc
  obtain ⟨p, hp, he⟩ := hc
  rw [beq_iff_eq] at he
  exact h (List.mem_map.mpr ⟨p, hp, he⟩)

theorem updateAssoc_last {α : Type} (pre : List (String × α)) (c : String)
    (docs : α) (f : α → α) (h : c ∉ keysOf pre) :
    updateAssoc (pre ++ [(c, docs)]) c f = pre ++ [(c, f docs)] := by
  unfold updateAssoc
  rw [List.map_append]
  congr 1
  · rw [show pre = List.map id pre by simp]
    rw [List.map_map]
    apply List.map_congr_left
    intro p hp
    simp only [Function.comp, id]
    rw [if_neg]
    rw [beq_iff_eq]
    intro he
    exact h (List.mem_map.mpr ⟨p, hp, he⟩)
  · simp

theorem flatDocs_append (a b : List (String × List (String × List (String × String)))) :
    flatDocs (a ++ b) = flatDocs a ++ flatDocs b := by
  simp [flatDocs]

theorem keysOf_append {α : Type} (a b : List (String × α)) :
    keysOf (a ++ b) = keysOf a ++ keysOf b := by
  simp [keysOf]

theorem mem_keysOf_flatDocs_of_mem {cd : List (String × List (String × List (String × String)))}
    {c : String} {docs : List (String × List (String × String))}
    (hc : (c, docs) ∈ cd) {i : String} (hi : i ∈ keysOf docs) :
    i ∈ keysOf (flatDocs cd) := by
  simp only [keysOf, flatDocs, List.mem_map, List.mem_flatMap] at hi ⊢
  obtain ⟨p, hp, rfl⟩ := hi
  exact ⟨p, ⟨(c, docs), hc, hp⟩, rfl⟩



/-- Parsing a block of field bullet lines appends exactly the recorded
pairs to the current document's field list. -/
theorem parse_fields :
    ∀ (lines : List String) (pairs : List (String × String)),
    List.Forall₂ (fun line pr =>
      ∃ n, line = spaces n ++ "- `" ++ pr.1 ++ "` (" ++ pr.2 ++ ")") lines pairs →
    (∀ pr ∈ pairs, cleanStr pr.1 = true ∧ cleanStr pr.2 = true) →
    ∀ (ps : PState) (c d : String)
      (pre : List (String × List (String × List (String × String))))
      (dpre : List (String × List (String × String)))
      (fields0 : List (String × String)),
      ps.current_collection = some c → c ≠ "" →
      ps.current_document = some d → d ≠ "" →
      ps.collections_data = pre ++ [(c, dpre ++ [(d, fields0)])] →
      c ∉ keysOf pre → d ∉ keysOf dpre →
      parseLines lines ps =
        { ps with collections_data := pre ++ [(c, dpre ++ [(d, fields0 ++ pairs)])] } := by
  intro lines pairs hf
  induction hf with
  | nil =>
    intro _ ps c d pre dpre fields0 hc hcne hd hdne hcd hcp hdp
    rw [parseLines_nil]
    cases ps
    simp_all
  | cons hpr htail ih =>
    rename_i line pr lines' pairs'
    intro hclean ps c d pre dpre fields0 hc hcne hd hdne hcd hcp hdp
    obtain ⟨n, rfl⟩ := hpr
    have hkc := (hclean pr (List.mem_cons_self _ _)).1
    have htc := (hclean pr (List.mem_cons_self _ _)).2
    show parseLines _ _ = _
    rw [show (spaces n ++ "- `" ++ pr.1 ++ "` (" ++ pr.2 ++ ")") :: lines' =
      [spaces n ++ "- `" ++ pr.1 ++ "` (" ++ pr.2 ++ ")"] ++ lines' from rfl]
    rw [parseLines_append]
    have hstep : parseLines [spaces n ++ "- `" ++ pr.1 ++ "` (" ++ pr.2 ++ ")"] ps =
        { ps with collections_data := pre ++ [(c, dpre ++ [(d, fields0 ++ [pr])])] } := by
      show parseStep ps _ = _
      rw [parseStep_field ps c d pr.1 pr.2 n
        (cleanStr_not_mem hkc (by decide)) (cleanStr_not_mem hkc (by decide))
        (cleanStr_not_mem hkc (by decide))
        (cleanStr_not_mem htc (by decide)) (cleanStr_not_mem htc (by decide))
        (cleanStr_not_mem htc (by decide)) hc hcne hd hdne]
      rw [hcd]
      rw [updateAssoc_last pre c _ _ hcp, updateAssoc_last dpre d _ _ hdp]
    rw [hstep]
    rw [ih (fun q hq => hclean q (List.mem_cons_of_mem _ hq))
      { ps with collections_data := pre ++ [(c, dpre ++ [(d, fields0 ++ [pr])])] }
      c d pre dpre (fields0 ++ [pr]) (by simp [hc]) hcne (by simp [hd]) hdne rfl hcp hdp]
    simp

end FirestoreSchema

namespace FirestoreSchema
set_option maxRecDepth 20000
set_option maxHeartbeats 2000000

/-- Cleanliness of one sampled document: id and recorded pairs free of
parser-colliding characters, id nonempty, child-collection ids and error
messages clean. -/
def CleanDoc (cfg : Config) (doc : DocSnapshot) : Prop :=
  cleanStr doc.id = true ∧ doc.id ≠ "" ∧
  (∀ pr ∈ doc_pairs cfg doc.data, cleanStr pr.1 = true ∧ cleanStr pr.2 = true) ∧
  (match doc.subcollections with
   | .completes ids => ∀ i ∈ ids, cleanStr i = true
   | .stalls => True
   | .raises e => cleanStr e.str = true)

/-- Cleanliness of every document the store can yield. -/
def CleanStore (cfg : Config) (store : Store) : Prop :=
  ∀ p, match (store p).sampleDocs with
       | .completes docs => ∀ doc ∈ docs, CleanDoc cfg doc
       | _ => True

theorem cleanDocs_of_safe_stream {cfg : Config} {store : Store}
    (hCS : CleanStore cfg store) (path : String) (st st' : ExplorerState)
    (docs : List DocSnapshot)
    (h : safe_stream_collection cfg (store path).sampleDocs st = (.ok docs, st')) :
    ∀ doc ∈ docs, CleanDoc cfg doc := by
  intro doc hdoc
  have hp := hCS path
  unfold safe_stream_collection run_with_timeout at h
  rcases hd : (store path).sampleDocs with l | _ | e <;> rw [hd] at h hp <;> simp at h hp
  · rw [← h.1] at hdoc
    exact hp doc hdoc
  · rw [h.1] at hdoc
    simp at hdoc
  · rcases hpd : e.isPermissionDenied <;> rw [hpd] at h <;> simp at h
    rw [h.1] at hdoc
    simp at hdoc

theorem parseStep_marker_no_docs (ps : PState) :
    parseStep ps "*No documents found*" = ps :=
  parseStep_inert _ _ (by decide)

theorem parseStep_marker_timeout (ps : PState) :
    parseStep ps "*Timed out when fetching subcollections*" = ps :=
  parseStep_inert _ _ (by decide)

theorem parseStep_marker_perm (ps : PState) (level : Nat) :
    parseStep ps (indent level ++ "*Permission denied when accessing documents*") = ps := by
  apply parseStep_inert
  intro h
  rw [String.data_append] at h
  rcases List.mem_append.mp h with h | h
  · exact absurd (List.eq_of_mem_replicate h) (by decide)
  · revert h; decide

theorem parseStep_marker_error (ps : PState) (msg : String)
    (hmsg : cleanStr msg = true) :
    parseStep ps ("*Error fetching subcollections: " ++ msg ++ "*") = ps := by
  apply parseStep_inert
  intro h
  rw [String.data_append, String.data_append] at h
  rcases List.mem_append.mp h with h | h
  · rcases List.mem_append.mp h with h | h
    · revert h; decide
    · exact cleanStr_not_mem hmsg (by decide) h
  · revert h; decide

theorem cleanStr_append (a b : String) :
    cleanStr (a ++ b) = (cleanStr a && cleanStr b) := by
  simp [cleanStr, String.data_append, List.all_append]

theorem ne_empty_append_left (a b : String) (h : a ≠ "") : a ++ b ≠ "" := by
  intro he
  apply h
  apply String.ext
  have := congrArg String.data he
  rw [String.data_append] at this
  rcases List.append_eq_nil.mp this with ⟨h1, _⟩
  exact h1

end FirestoreSchema

namespace FirestoreSchema
set_option maxRecDepth 20000
set_option maxHeartbeats 2000000

theorem run_with_timeout_state {α : Type} (cfg : Config) (op : OpBehavior α)
    (st : ExplorerState) :
    ((run_with_timeout cfg op st).2).processed_paths = st.processed_paths := by
  cases op <;> rfl

theorem safe_stream_state (cfg : Config) (beh : OpBehavior (List DocSnapshot))
    (st : ExplorerState) :
    ((safe_stream_collection cfg beh st).2).processed_paths = st.processed_paths := by
  unfold safe_stream_collection
  rcases beh with l | _ | e <;> simp [run_with_timeout]
  split <;> rfl

theorem count_phase_state (cfg : Config) (beh : OpBehavior (List DocSnapshot))
    (st : ExplorerState) (dc : Option Nat) (dcs : String) (st2 : ExplorerState)
    (h : (if _h : cfg.include_stats = true then
            match run_with_timeout cfg beh st with
            | ((docs, timed_out, error), st) =>
              if _h2 : timed_out = true then
                ((none : Option Nat), "unknown (timed out)", st)
              else
                match error with
                | some _ => (none, "unknown (error)", st)
                | none =>
                  let n := (docs.getD []).length
                  (some n, if _h3 : 1000 ≤ n then toString n ++ "+" else toString n, st)
          else (none, "", st)) = (dc, dcs, st2)) :
    st2.processed_paths = st.processed_paths := by
  split at h
  · rcases hrt : run_with_timeout cfg beh st with ⟨⟨docs, t, e⟩, stx⟩
    rw [hrt] at h
    have hx : stx.processed_paths = st.processed_paths := by
      have h2 := run_with_timeout_state cfg beh st
      rw [hrt] at h2
      exact h2
    simp only at h
    split at h
    · have h2 := congrArg (fun p => p.2.2.processed_paths) h
      simp only at h2
      rw [← h2]
      exact hx
    · rcases e with _ | e
      · simp only at h
        have h2 := congrArg (fun p => p.2.2.processed_paths) h
        simp only at h2
        rw [← h2]
        exact hx
      · simp only at h
        have h2 := congrArg (fun p => p.2.2.processed_paths) h
        simp only at h2
        rw [← h2]
        exact hx
  · have h2 := congrArg (fun p => p.2.2.processed_paths) h
    simp only at h2
    rw [← h2]

theorem trav_paths (cfg : Config) (store : Store) :
    (∀ (path : String) (level : Nat) (st : ExplorerState),
      (∀ x ∈ st.processed_paths,
        x ∈ (trav_collection cfg store path level st).2.2.processed_paths) ∧
      (path ∉ st.processed_paths → level < cfg.max_depth →
        path ∈ (trav_collection cfg store path level st).2.2.processed_paths)) ∧
    (∀ (path : String) (level : Nat) (docs : List DocSnapshot) (st : ExplorerState),
      ∀ x ∈ st.processed_paths,
        x ∈ (trav_docs cfg store path level docs st).2.2.processed_paths) ∧
    (∀ (docPath : String) (level : Nat) (subcols : List String) (st : ExplorerState)
       (h : level < cfg.max_depth - 1),
      ∀ x ∈ st.processed_paths,
        x ∈ (trav_subcols cfg store docPath level subcols st h).2.2.processed_paths) := by
  refine trav_collection.mutual_induct cfg store
    (fun path level st =>
      (∀ x ∈ st.processed_paths,
        x ∈ (trav_collection cfg store path level st).2.2.processed_paths) ∧
      (path ∉ st.processed_paths → level < cfg.max_depth →
        path ∈ (trav_collection cfg store path level st).2.2.processed_paths))
    (fun path level docs st =>
      ∀ x ∈ st.processed_paths,
        x ∈ (trav_docs cfg store path level docs st).2.2.processed_paths)
    (fun docPath level subcols st h =>
      ∀ x ∈ st.processed_paths,
        x ∈ (trav_subcols cfg store docPath level subcols st h).2.2.processed_paths)
    ?_ ?_ ?_ ?_ ?_ ?_ ?_ ?_ ?_ ?_ ?_ ?_
  all_goals intros
  case refine_1 =>
    rename_i path level st0 hguard
    constructor
    · intro x hx
      rw [trav_collection]
      simp only [if_pos hguard]
      exact hx
    · intro hni hlt
      rcases hguard with h | h
      · exact absurd h hni
      · omega
  case refine_2 =>
    rename_i path level st0 hg stA stB dc dcs st2 hcount adc te st1 a stE hsafe
    have hp2 : st2.processed_paths = path :: st0.processed_paths :=
      count_phase_state cfg (store path).countDocs stB dc dcs st2 hcount
    have hpE : stE.processed_paths = st2.processed_paths := by
      have h2 := safe_stream_state cfg (store path).sampleDocs st1
      rw [hsafe] at h2
      exact h2
    have htr : (trav_collection cfg store path level st0).2.2 = stE := by
      rw [trav_collection]
      simp_all +zetaDelta
      all_goals simp [show ¬ cfg.max_depth ≤ level from by omega]
    rw [htr, hpE, hp2]
    constructor
    · intro x hx
      exact List.mem_cons_of_mem _ hx
    · intro _ _
      exact List.mem_cons_self _ _
  case refine_3 =>
    rename_i path level st0 hg stA stB dc dcs st2 hcount adc te st1 docs stE hsafe hempty
    have hp2 : st2.processed_paths = path :: st0.processed_paths :=
      count_phase_state cfg (store path).countDocs stB dc dcs st2 hcount
    have hpE : stE.processed_paths = st2.processed_paths := by
      have h2 := safe_stream_state cfg (store path).sampleDocs st1
      rw [hsafe] at h2
      exact h2
    have htr : (trav_collection cfg store path level st0).2.2 = stE := by
      rw [trav_collection]
      simp_all +zetaDelta
      all_goals simp [show ¬ cfg.max_depth ≤ level from by omega]
    rw [htr, hpE, hp2]
    constructor
    · intro x hx
      exact List.mem_cons_of_mem _ hx
    · intro _ _
      exact List.mem_cons_self _ _
  case refine_4 =>
    rename_i path level st0 hg stA stB dc dcs st3 hcount adc te st2 docs st1 hsafe hne dl rcs stE htail ih
    have hp3 : st3.processed_paths = path :: st0.processed_paths :=
      count_phase_state cfg (store path).countDocs stB dc dcs st3 hcount
    have hp1 : st1.processed_paths = st3.processed_paths := by
      have h2 := safe_stream_state cfg (store path).sampleDocs st2
      rw [hsafe] at h2
      exact h2
    have htr : (trav_collection cfg store path level st0).2.2 = stE := by
      rw [trav_collection]
      simp_all +zetaDelta
      all_goals simp [show ¬ cfg.max_depth ≤ level from by omega]
    have hmem : ∀ x ∈ st1.processed_paths, x ∈ stE.processed_paths := by
      intro x hx
      have h2 := ih x hx
      rw [htail] at h2
      exact h2
    rw [htr]
    constructor
    · intro x hx
      apply hmem
      rw [hp1, hp3]
      exact List.mem_cons_of_mem _ hx
    · intro _ _
      apply hmem
      rw [hp1, hp3]
      exact List.mem_cons_self _ _
  case refine_7 =>
    rename_i path level st0 doc rest hne stA fl nf hdf stB hlt subc err st1 dl rcs stE htail hrt ih
    intro x hx
    have hp1 : st1.processed_paths = st0.processed_paths := by
      have h2 := run_with_timeout_state cfg doc.subcollections stB
      rw [hrt] at h2
      exact h2
    have htr : (trav_docs cfg store path level (doc :: rest) st0).2.2 = stE := by
      rw [trav_docs]
      simp_all +zetaDelta
    rw [htr]
    have h2 := ih x (by rw [hp1]; exact hx)
    rw [htail] at h2
    exact h2
  case refine_8 =>
    rename_i path level st0 doc rest hne stA fl nf hdf stB hlt subc t st1 hnt e dl rcs stE htail hrt ih
    intro x hx
    have hp1 : st1.processed_paths = st0.processed_paths := by
      have h2 := run_with_timeout_state cfg doc.subcollections stB
      rw [hrt] at h2
      exact h2
    have htr : (trav_docs cfg store path level (doc :: rest) st0).2.2 = stE := by
      rw [trav_docs]
      simp_all +zetaDelta
    rw [htr]
    have h2 := ih x (by rw [hp1]; exact hx)
    rw [htail] at h2
    exact h2
  case refine_9 =>
    rename_i path level st0 doc rest hne stA fl nf hdf stB hlt subc t st2 hnt dl1 rcs1 st1 hsub dl rcs stE htail hrt ihsub ih
    intro x hx
    have hp2 : st2.processed_paths = st0.processed_paths := by
      have h2 := run_with_timeout_state cfg doc.subcollections stB
      rw [hrt] at h2
      exact h2
    have htr : (trav_docs cfg store path level (doc :: rest) st0).2.2 = stE := by
      rw [trav_docs]
      simp_all +zetaDelta
    rw [htr]
    have h3 := ihsub x (by rw [hp2]; exact hx)
    rw [hsub] at h3
    have h2 := ih x h3
    rw [htail] at h2
    exact h2
  case refine_10 =>
    rename_i path level st0 doc rest hne stA fl nf hdf stB hnlt dl rcs stE htail ih
    intro x hx
    have htr : (trav_docs cfg store path level (doc :: rest) st0).2.2 = stE := by
      rw [trav_docs]
      simp_all +zetaDelta
      all_goals simp [show ¬ level < cfg.max_depth - 1 from by omega]
    rw [htr]
    have h2 := ih x hx
    rw [htail] at h2
    exact h2
  all_goals first
    | (rw [trav_docs]; intro x hx; simp_all [run_with_timeout_state]; done)
    | (rw [trav_subcols]; intro x hx; simp_all; done)

/-- Invariant of the parser state maintained while parsing a traversal's
output: collection keys are distinct, and the current collection (when
set) is the last, nonempty-named entry. -/
def PInv (ps : PState) : Prop :=
  (keysOf ps.collections_data).Nodup ∧
  ((ps.current_collection = none ∧ ps.collections_data = []) ∨
   (∃ c pre docs, ps.current_collection = some c ∧ c ≠ "" ∧
     ps.collections_data = pre ++ [(c, docs)] ∧ c ∉ keysOf pre))

/-- What parsing one traversal block does to the parser state: it appends
exactly the recorded documents to the flattened structure, preserves the
invariant, and keeps collection keys within the visited set. -/
def PConc (ps ps' : PState) (recs : List (String × List (String × String)))
    (st st' : ExplorerState) : Prop :=
  flatDocs ps'.collections_data = flatDocs ps.collections_data ++ recs ∧
  PInv ps' ∧
  (∀ k ∈ keysOf ps'.collections_data, k ∈ st'.processed_paths) ∧
  (∀ x ∈ st.processed_paths, x ∈ st'.processed_paths) ∧
  (ps.collections_data ≠ [] → ps'.collections_data ≠ [])

theorem parseLines_cons (l : String) (ls : List String) (ps : PState) :
    parseLines (l :: ls) ps = parseLines ls (parseStep ps l) := rfl

theorem parse_trav (cfg : Config) (store : Store) (hCS : CleanStore cfg store) :
    (∀ (path : String) (level : Nat) (st : ExplorerState),
      cleanStr path = true → path ≠ "" →
      ∀ ps : PState, PInv ps →
        (∀ k ∈ keysOf ps.collections_data, k ∈ st.processed_paths) →
        (∀ i ∈ keysOf (trav_collection cfg store path level st).2.1,
           i ∉ keysOf (flatDocs ps.collections_data)) →
        (keysOf (trav_collection cfg store path level st).2.1).Nodup →
        PConc ps (parseLines (trav_collection cfg store path level st).1 ps)
          (trav_collection cfg store path level st).2.1 st
          (trav_collection cfg store path level st).2.2) ∧
    (∀ (path : String) (level : Nat) (docs : List DocSnapshot) (st : ExplorerState),
      cleanStr path = true → path ≠ "" →
      (∀ doc ∈ docs, CleanDoc cfg doc) →
      ∀ ps : PState,
        (keysOf ps.collections_data).Nodup →
        (∃ c pre cdocs, ps.current_collection = some c ∧ c ≠ "" ∧
           ps.collections_data = pre ++ [(c, cdocs)] ∧ c ∉ keysOf pre) →
        (∀ k ∈ keysOf ps.collections_data, k ∈ st.processed_paths) →
        (∀ i ∈ keysOf (trav_docs cfg store path level docs st).2.1,
           i ∉ keysOf (flatDocs ps.collections_data)) →
        (keysOf (trav_docs cfg store path level docs st).2.1).Nodup →
        PConc ps (parseLines (trav_docs cfg store path level docs st).1 ps)
          (trav_docs cfg store path level docs st).2.1 st
          (trav_docs cfg store path level docs st).2.2) ∧
    (∀ (docPath : String) (level : Nat) (subcols : List String) (st : ExplorerState)
       (h : level < cfg.max_depth - 1),
      cleanStr docPath = true → docPath ≠ "" →
      (∀ i ∈ subcols, cleanStr i = true) →
      ∀ ps : PState, PInv ps →
        (∀ k ∈ keysOf ps.collections_data, k ∈ st.processed_paths) →
        (∀ i ∈ keysOf (trav_subcols cfg store docPath level subcols st h).2.1,
           i ∉ keysOf (flatDocs ps.collections_data)) →
        (keysOf (trav_subcols cfg store docPath level subcols st h).2.1).Nodup →
        PConc ps (parseLines (trav_subcols cfg store docPath level subcols st h).1 ps)
          (trav_subcols cfg store docPath level subcols st h).2.1 st
          (trav_subcols cfg store docPath level subcols st h).2.2) := by
  refine trav_collection.mutual_induct cfg store
    (fun path level st =>
      cleanStr path = true → path ≠ "" →
      ∀ ps : PState, PInv ps →
        (∀ k ∈ keysOf ps.collections_data, k ∈ st.processed_paths) →
        (∀ i ∈ keysOf (trav_collection cfg store path level st).2.1,
           i ∉ keysOf (flatDocs ps.collections_data)) →
        (keysOf (trav_collection cfg store path level st).2.1).Nodup →
        PConc ps (parseLines (trav_collection cfg store path level st).1 ps)
          (trav_collection cfg store path level st).2.1 st
          (trav_collection cfg store path level st).2.2)
    (fun path level docs st =>
      cleanStr path = true → path ≠ "" →
      (∀ doc ∈ docs, CleanDoc cfg doc) →
      ∀ ps : PState,
        (keysOf ps.collections_data).Nodup →
        (∃ c pre cdocs, ps.current_collection = some c ∧ c ≠ "" ∧
           ps.collections_data = pre ++ [(c, cdocs)] ∧ c ∉ keysOf pre) →
        (∀ k ∈ keysOf ps.collections_data, k ∈ st.processed_paths) →
        (∀ i ∈ keysOf (trav_docs cfg store path level docs st).2.1,
           i ∉ keysOf (flatDocs ps.collections_data)) →
        (keysOf (trav_docs cfg store path level docs st).2.1).Nodup →
        PConc ps (parseLines (trav_docs cfg store path level docs st).1 ps)
          (trav_docs cfg store path level docs st).2.1 st
          (trav_docs cfg store path level docs st).2.2)
    (fun docPath level subcols st h =>
      cleanStr docPath = true → docPath ≠ "" →
      (∀ i ∈ subcols, cleanStr i = true) →
      ∀ ps : PState, PInv ps →
        (∀ k ∈ keysOf ps.collections_data, k ∈ st.processed_paths) →
        (∀ i ∈ keysOf (trav_subcols cfg store docPath level subcols st h).2.1,
           i ∉ keysOf (flatDocs ps.collections_data)) →
        (keysOf (trav_subcols cfg store docPath level subcols st h).2.1).Nodup →
        PConc ps (parseLines (trav_subcols cfg store docPath level subcols st h).1 ps)
          (trav_subcols cfg store docPath level subcols st h).2.1 st
          (trav_subcols cfg store docPath level subcols st h).2.2)
    ?_ ?_ ?_ ?_ ?_ ?_ ?_ ?_ ?_ ?_ ?_ ?_
  case refine_1 =>
    intro path level st hguard hclean hne ps hinv hkeys hfr hnd
    have he : trav_collection cfg store path level st = ([], [], st) := by
      rw [trav_collection]
      simp [hguard]
    rw [he] at hfr hnd ⊢
    refine ⟨by simp [parseLines_nil], by rw [parseLines_nil]; exact hinv,
      by rw [parseLines_nil]; exact hkeys, fun x hx => hx,
      by rw [parseLines_nil]; exact fun h => h⟩
  case refine_2 =>
    intro path level st0 hg stA stB dc dcs st2 hcount adc te st1 a stE hsafe
    intro hclean hne ps hinv hkeys hfr hnd
    have hp2 : st2.processed_paths = path :: st0.processed_paths :=
      count_phase_state cfg (store path).countDocs stB dc dcs st2 hcount
    have hpE : stE.processed_paths = st2.processed_paths := by
      have h2 := safe_stream_state cfg (store path).sampleDocs st1
      rw [hsafe] at h2
      exact h2
    have hpath_notin : path ∉ st0.processed_paths := fun hmem => hg (Or.inl hmem)
    have htrav : trav_collection cfg store path level st0 =
        (["### Collection: `" ++ path ++ "`" ++
            (if dc.isSome = true then " (" ++ dcs ++ " documents)" else ""),
          indent (level + 1) ++ "*Permission denied when accessing documents*"],
         [], stE) := by
      rw [trav_collection]
      simp_all +zetaDelta
      all_goals simp [show ¬ cfg.max_depth ≤ level from by omega]
    rw [htrav] at hfr hnd ⊢
    have hfresh : path ∉ keysOf ps.collections_data :=
      fun hmem => hpath_notin (hkeys path hmem)
    have hcd1 : setAssoc ps.collections_data path [] =
        ps.collections_data ++ [(path, [])] := setAssoc_fresh _ _ _ hfresh
    have hparse : parseLines
        ["### Collection: `" ++ path ++ "`" ++
            (if dc.isSome = true then " (" ++ dcs ++ " documents)" else ""),
          indent (level + 1) ++ "*Permission denied when accessing documents*"] ps =
        { ps with
          collections_data := setAssoc ps.collections_data path []
          current_collection := some path } := by
      rw [parseLines_cons, parseStep_collection ps path _
        (cleanStr_not_mem hclean (by decide)), parseLines_cons,
        parseStep_marker_perm, parseLines_nil]
    rw [hparse]
    refine ⟨?_, ⟨?_, Or.inr ⟨path, ps.collections_data, [], rfl, hne, ?_, hfresh⟩⟩,
      ?_, ?_, ?_⟩
    · show flatDocs (setAssoc ps.collections_data path []) = _
      rw [hcd1, flatDocs_append]
      simp [flatDocs]
    · show (keysOf (setAssoc ps.collections_data path [])).Nodup
      rw [hcd1, keysOf_append]
      rw [List.nodup_append]
      refine ⟨hinv.1, by simp [keysOf], ?_⟩
      intro a ha hap
      simp [keysOf] at hap
      exact hfresh (hap ▸ ha)
    · show setAssoc ps.collections_data path [] = _
      exact hcd1
    · intro k hk
      rw [hpE, hp2]
      have hk2 : k ∈ keysOf (ps.collections_data ++ [(path, [])]) := by
        rw [← hcd1]
        exact hk
      rw [keysOf_append] at hk2
      rcases List.mem_append.mp hk2 with h | h
      · exact List.mem_cons_of_mem _ (hkeys k h)
      · simp [keysOf] at h
        rw [h]
        exact List.mem_cons_self _ _
    · intro x hx
      rw [hpE, hp2]
      exact List.mem_cons_of_mem _ hx
    · intro _
      show setAssoc ps.collections_data path [] ≠ []
      rw [hcd1]
      simp
  case refine_3 =>
    intro path level st0 hg stA stB dc dcs st2 hcount adc te st1 docs stE hsafe hempty
    intro hclean hne ps hinv hkeys hfr hnd
    have hp2 : st2.processed_paths = path :: st0.processed_paths :=
      count_phase_state cfg (store path).countDocs stB dc dcs st2 hcount
    have hpE : stE.processed_paths = st2.processed_paths := by
      have h2 := safe_stream_state cfg (store path).sampleDocs st1
      rw [hsafe] at h2
      exact h2
    have hpath_notin : path ∉ st0.processed_paths := fun hmem => hg (Or.inl hmem)
    have htrav : trav_collection cfg store path level st0 =
        (["### Collection: `" ++ path ++ "`" ++
            (if dc.isSome = true then " (" ++ dcs ++ " documents)" else ""),
          "*No documents found*"],
         [], stE) := by
      rw [trav_collection]
      simp_all +zetaDelta
      all_goals simp [show ¬ cfg.max_depth ≤ level from by omega]
    rw [htrav] at hfr hnd ⊢
    have hfresh : path ∉ keysOf ps.collections_data :=
      fun hmem => hpath_notin (hkeys path hmem)
    have hcd1 : setAssoc ps.collections_data path [] =
        ps.collections_data ++ [(path, [])] := setAssoc_fresh _ _ _ hfresh
    have hparse : parseLines
        ["### Collection: `" ++ path ++ "`" ++
            (if dc.isSome = true then " (" ++ dcs ++ " documents)" else ""),
          "*No documents found*"] ps =
        { ps with
          collections_data := setAssoc ps.collections_data path []
          current_collection := some path } := by
      rw [parseLines_cons, parseStep_collection ps path _
        (cleanStr_not_mem hclean (by decide)), parseLines_cons,
        parseStep_marker_no_docs, parseLines_nil]
    rw [hparse]
    refine ⟨?_, ⟨?_, Or.inr ⟨path, ps.collections_data, [], rfl, hne, ?_, hfresh⟩⟩,
      ?_, ?_, ?_⟩
    · show flatDocs (setAssoc ps.collections_data path []) = _
      rw [hcd1, flatDocs_append]
      simp [flatDocs]
    · show (keysOf (setAssoc ps.collections_data path [])).Nodup
      rw [hcd1, keysOf_append]
      rw [List.nodup_append]
      refine ⟨hinv.1, by simp [keysOf], ?_⟩
      intro a ha hap
      simp [keysOf] at hap
      exact hfresh (hap ▸ ha)
    · show setAssoc ps.collections_data path [] = _
      exact hcd1
    · intro k hk
      rw [hpE, hp2]
      have hk2 : k ∈ keysOf (ps.collections_data ++ [(path, [])]) := by
        rw [← hcd1]
        exact hk
      rw [keysOf_append] at hk2
      rcases List.mem_append.mp hk2 with h | h
      · exact List.mem_cons_of_mem _ (hkeys k h)
      · simp [keysOf] at h
        rw [h]
        exact List.mem_cons_self _ _
    · intro x hx
      rw [hpE, hp2]
      exact List.mem_cons_of_mem _ hx
    · intro _
      show setAssoc ps.collections_data path [] ≠ []
      rw [hcd1]
      simp
  case refine_4 =>
    intro path level st0 hg stA stB dc dcs st3 hcount adc te st2 docs st1 hsafe hnedocs dl rcs stE htail ih
    intro hclean hne ps hinv hkeys hfr hnd
    have hp3 : st3.processed_paths = path :: st0.processed_paths :=
      count_phase_state cfg (store path).countDocs stB dc dcs st3 hcount
    have hp1 : st1.processed_paths = st3.processed_paths := by
      have h2 := safe_stream_state cfg (store path).sampleDocs st2
      rw [hsafe] at h2
      exact h2
    have hpath_notin : path ∉ st0.processed_paths := fun hmem => hg (Or.inl hmem)
    have htrav : trav_collection cfg store path level st0 =
        (("### Collection: `" ++ path ++ "`" ++
            (if dc.isSome = true then " (" ++ dcs ++ " documents)" else "")) :: dl,
         rcs, stE) := by
      clear ih hfr hnd hkeys hinv
      rw [trav_collection]
      simp_all +zetaDelta
      all_goals simp [show ¬ cfg.max_depth ≤ level from by omega]
    rw [htrav] at hfr hnd ⊢
    have hdocs : ∀ doc ∈ docs, CleanDoc cfg doc :=
      cleanDocs_of_safe_stream hCS path st2 st1 docs hsafe
    have hfresh : path ∉ keysOf ps.collections_data :=
      fun hmem => hpath_notin (hkeys path hmem)
    have hcd1 : setAssoc ps.collections_data path [] =
        ps.collections_data ++ [(path, [])] := setAssoc_fresh _ _ _ hfresh
    rw [parseLines_cons, parseStep_collection ps path _
      (cleanStr_not_mem hclean (by decide))]
    set ps1 : PState := { ps with
      collections_data := setAssoc ps.collections_data path []
      current_collection := some path } with hps1
    have hnodup1 : (keysOf ps1.collections_data).Nodup := by
      show (keysOf (setAssoc ps.collections_data path [])).Nodup
      rw [hcd1, keysOf_append, List.nodup_append]
      refine ⟨hinv.1, by simp [keysOf], ?_⟩
      intro a ha hap
      simp [keysOf] at hap
      exact hfresh (hap ▸ ha)
    have hsome1 : ∃ c pre cdocs, ps1.current_collection = some c ∧ c ≠ "" ∧
        ps1.collections_data = pre ++ [(c, cdocs)] ∧ c ∉ keysOf pre :=
      ⟨path, ps.collections_data, [], rfl, hne, hcd1, hfresh⟩
    have hkeys1 : ∀ k ∈ keysOf ps1.collections_data, k ∈ st1.processed_paths := by
      intro k hk
      rw [hp1, hp3]
      have hk2 : k ∈ keysOf (ps.collections_data ++ [(path, [])]) := by
        rw [← hcd1]
        exact hk
      rw [keysOf_append] at hk2
      rcases List.mem_append.mp hk2 with h | h
      · exact List.mem_cons_of_mem _ (hkeys k h)
      · simp [keysOf] at h
        rw [h]
        exact List.mem_cons_self _ _
    have hflat1 : flatDocs ps1.collections_data = flatDocs ps.collections_data := by
      show flatDocs (setAssoc ps.collections_data path []) = _
      rw [hcd1, flatDocs_append]
      simp [flatDocs]
    have hfresh1 : ∀ i ∈ keysOf (trav_docs cfg store path level docs st1).2.1,
        i ∉ keysOf (flatDocs ps1.collections_data) := by
      rw [htail, hflat1]
      exact hfr
    have hnd1 : (keysOf (trav_docs cfg store path level docs st1).2.1).Nodup := by
      rw [htail]
      exact hnd
    have hconc := ih hclean hne hdocs ps1 hnodup1 hsome1 hkeys1 hfresh1 hnd1
    rw [htail] at hconc
    obtain ⟨hc1, hc2, hc3, hc4, hc5⟩ := hconc
    refine ⟨?_, hc2, hc3, ?_, ?_⟩
    · rw [hc1, hflat1]
    · intro x hx
      apply hc4
      rw [hp1, hp3]
      exact List.mem_cons_of_mem _ hx
    · intro _
      apply hc5
      show setAssoc ps.collections_data path [] ≠ []
      rw [hcd1]
      simp
  case refine_5 =>
    intro path level st0
    intro hclean hne hdocs ps hnodup hsome hkeys hfr hnd
    have htrav : trav_docs cfg store path level [] st0 = ([], [], st0) := by
      rw [trav_docs]
    rw [htrav] at hfr hnd ⊢
    rw [parseLines_nil]
    exact ⟨by simp, ⟨hnodup, Or.inr hsome⟩, hkeys, fun x hx => hx, fun h => h⟩
  case refine_6 =>
    intro path level st0 doc rest hemp ih
    intro hclean hne hdocs ps hnodup hsome hkeys hfr hnd
    have htrav : trav_docs cfg store path level (doc :: rest) st0 =
        trav_docs cfg store path level rest st0 := by
      conv_lhs => rw [trav_docs]
      simp [hemp]
    rw [htrav] at hfr hnd ⊢
    exact ih hclean hne (fun d hd => hdocs d (List.mem_cons_of_mem _ hd)) ps
      hnodup hsome hkeys hfr hnd
  case refine_11 =>
    intro docPath level st0 h
    intro hclean hne hsubs ps hinv hkeys hfr hnd
    have htrav : trav_subcols cfg store docPath level [] st0 h = ([], [], st0) := by
      rw [trav_subcols]
    rw [htrav] at hfr hnd ⊢
    rw [parseLines_nil]
    exact ⟨by simp, hinv, hkeys, fun x hx => hx, fun h => h⟩
  case refine_10 =>
    intro path level st0 doc rest hned stA fl nf hdf stB hnlt dl rcs stE htail ih
    intro hclean hne hdocs ps hnodup hsome hkeys hfr hnd
    obtain ⟨c, pre, cdocs, hcur, hcne, hcd, hcpre⟩ := hsome
    obtain ⟨hid_clean, hid_ne, hpairs_clean, hsubc_clean⟩ :=
      hdocs doc (List.mem_cons_self _ _)
    have hpB : stB.processed_paths = st0.processed_paths := rfl
    have htrav : trav_docs cfg store path level (doc :: rest) st0 =
        (("#### Document: `" ++ doc.id ++ "`") :: (fl ++ dl),
         (doc.id, doc_pairs cfg doc.data) :: rcs, stE) := by
      clear ih hfr hnd hkeys
      rw [trav_docs]
      simp_all +zetaDelta
    rw [htrav] at hfr hnd ⊢
    have hnd' : doc.id ∉ keysOf rcs ∧ (keysOf rcs).Nodup := by
      simpa [keysOf] using hnd
    have hid_fr : doc.id ∉ keysOf cdocs := by
      intro hmem
      have h1 : doc.id ∈ keysOf (flatDocs ps.collections_data) :=
        @mem_keysOf_flatDocs_of_mem ps.collections_data c cdocs
          (by rw [hcd]; simp) doc.id hmem
      exact hfr doc.id (by simp [keysOf]) h1
    rw [parseLines_cons, parseStep_document ps doc.id c
      (cleanStr_not_mem hid_clean (by decide)) (cleanStr_not_mem hid_clean (by decide))
      hcur hcne]
    set ps1 : PState := { ps with
      collections_data :=
        updateAssoc ps.collections_data c (fun docs => setAssoc docs doc.id [])
      current_document := some doc.id } with hps1
    have hcd1 : ps1.collections_data = pre ++ [(c, cdocs ++ [(doc.id, [])])] := by
      show updateAssoc ps.collections_data c (fun docs => setAssoc docs doc.id []) =
        pre ++ [(c, cdocs ++ [(doc.id, [])])]
      rw [hcd, updateAssoc_last pre c _ _ hcpre, setAssoc_fresh _ _ _ hid_fr]
    have hfall : List.Forall₂ (fun line pr =>
        ∃ n, line = spaces n ++ "- `" ++ pr.1 ++ "` (" ++ pr.2 ++ ")")
        fl (doc_pairs cfg doc.data) := by
      have h2 := describe_entries_forall2 cfg (sortByKey doc.data) (level + 2)
      have h3 : (describe_entries cfg (sortByKey doc.data) (level + 2)).1 = fl := by
        have h4 : describe_fields cfg doc.data (level + 2) = (fl, nf) := hdf
        unfold describe_fields at h4
        rw [h4]
      rw [h3] at h2
      exact h2
    have hfieldsparse : parseLines fl ps1 = { ps1 with
        collections_data := pre ++ [(c, cdocs ++ [(doc.id, doc_pairs cfg doc.data)])] } := by
      have h5 := parse_fields fl (doc_pairs cfg doc.data) hfall hpairs_clean ps1 c doc.id
        pre cdocs [] hcur hcne rfl hid_ne hcd1 hcpre hid_fr
      rw [List.nil_append] at h5
      exact h5
    set ps2 : PState := { ps1 with
      collections_data := pre ++ [(c, cdocs ++ [(doc.id, doc_pairs cfg doc.data)])] } with hps2
    rw [parseLines_append, hfieldsparse]
    have hkeys_eq : ∀ (X : List (String × List (String × String))),
        keysOf (pre ++ [(c, X)]) = keysOf pre ++ [c] := by
      intro X
      rw [keysOf_append]
      rfl
    have hnodup2 : (keysOf ps2.collections_data).Nodup := by
      show (keysOf (pre ++ [(c, _)])).Nodup
      rw [hkeys_eq]
      have h6 := hnodup
      rw [hcd, hkeys_eq] at h6
      exact h6
    have hsome2 : ∃ c2 pre2 cdocs2, ps2.current_collection = some c2 ∧ c2 ≠ "" ∧
        ps2.collections_data = pre2 ++ [(c2, cdocs2)] ∧ c2 ∉ keysOf pre2 :=
      ⟨c, pre, cdocs ++ [(doc.id, doc_pairs cfg doc.data)], hcur, hcne, rfl, hcpre⟩
    have hkeys2 : ∀ k ∈ keysOf ps2.collections_data, k ∈ stB.processed_paths := by
      intro k hk
      rw [hpB]
      apply hkeys
      rw [hcd, hkeys_eq]
      have hk2 : k ∈ keysOf (pre ++ [(c, cdocs ++ [(doc.id, doc_pairs cfg doc.data)])]) := hk
      rw [hkeys_eq] at hk2
      exact hk2
    have hflat2 : flatDocs ps2.collections_data =
        flatDocs ps.collections_data ++ [(doc.id, doc_pairs cfg doc.data)] := by
      show flatDocs (pre ++ [(c, _)]) = _
      rw [hcd]
      simp [flatDocs_append, flatDocs]
    have hfresh2 : ∀ i ∈ keysOf (trav_docs cfg store path level rest stB).2.1,
        i ∉ keysOf (flatDocs ps2.collections_data) := by
      rw [htail]
      intro i hi
      rw [hflat2, keysOf_append]
      intro hmem
      rcases List.mem_append.mp hmem with h | h
      · exact hfr i (List.mem_cons_of_mem _ hi) h
      · simp [keysOf] at h
        rw [h] at hi
        exact hnd'.1 hi
    have hnd2 : (keysOf (trav_docs cfg store path level rest stB).2.1).Nodup := by
      rw [htail]
      exact hnd'.2
    have hconc := ih hclean hne (fun d hd => hdocs d (List.mem_cons_of_mem _ hd)) ps2
      hnodup2 hsome2 hkeys2 hfresh2 hnd2
    rw [htail] at hconc
    obtain ⟨hc1, hc2, hc3, hc4, hc5⟩ := hconc
    refine ⟨?_, hc2, hc3, ?_, ?_⟩
    · rw [hc1, hflat2]
      simp
    · intro x hx
      apply hc4
      rw [hpB]
      exact hx
    · intro _
      apply hc5
      show pre ++ [(c, _)] ≠ []
      simp
  case refine_7 =>
    intro path level st0 doc rest hned stA fl nf hdf stB hlt subc err st1 dl rcs stE htail hrt ih
    intro hclean hne hdocs ps hnodup hsome hkeys hfr hnd
    obtain ⟨c, pre, cdocs, hcur, hcne, hcd, hcpre⟩ := hsome
    obtain ⟨hid_clean, hid_ne, hpairs_clean, hsubc_clean⟩ :=
      hdocs doc (List.mem_cons_self _ _)
    have hp1 : st1.processed_paths = st0.processed_paths := by
      have h2 := run_with_timeout_state cfg doc.subcollections stB
      rw [hrt] at h2
      exact h2
    have htrav : trav_docs cfg store path level (doc :: rest) st0 =
        (("#### Document: `" ++ doc.id ++ "`") ::
          (fl ++ "*Timed out when fetching subcollections*" :: dl),
         (doc.id, doc_pairs cfg doc.data) :: rcs, stE) := by
      clear ih hfr hnd hkeys
      rw [trav_docs]
      simp_all +zetaDelta
    rw [htrav] at hfr hnd ⊢
    have hnd' : doc.id ∉ keysOf rcs ∧ (keysOf rcs).Nodup := by
      simpa [keysOf] using hnd
    have hid_fr : doc.id ∉ keysOf cdocs := by
      intro hmem
      have h1 : doc.id ∈ keysOf (flatDocs ps.collections_data) :=
        @mem_keysOf_flatDocs_of_mem ps.collections_data c cdocs
          (by rw [hcd]; simp) doc.id hmem
      exact hfr doc.id (by simp [keysOf]) h1
    rw [parseLines_cons, parseStep_document ps doc.id c
      (cleanStr_not_mem hid_clean (by decide)) (cleanStr_not_mem hid_clean (by decide))
      hcur hcne]
    set ps1 : PState := { ps with
      collections_data :=
        updateAssoc ps.collections_data c (fun docs => setAssoc docs doc.id [])
      current_document := some doc.id } with hps1
    have hcd1 : ps1.collections_data = pre ++ [(c, cdocs ++ [(doc.id, [])])] := by
      show updateAssoc ps.collections_data c (fun docs => setAssoc docs doc.id []) =
        pre ++ [(c, cdocs ++ [(doc.id, [])])]
      rw [hcd, updateAssoc_last pre c _ _ hcpre, setAssoc_fresh _ _ _ hid_fr]
    have hfall : List.Forall₂ (fun line pr =>
        ∃ n, line = spaces n ++ "- `" ++ pr.1 ++ "` (" ++ pr.2 ++ ")")
        fl (doc_pairs cfg doc.data) := by
      have h2 := describe_entries_forall2 cfg (sortByKey doc.data) (level + 2)
      have h3 : (describe_entries cfg (sortByKey doc.data) (level + 2)).1 = fl := by
        have h4 : describe_fields cfg doc.data (level + 2) = (fl, nf) := hdf
        unfold describe_fields at h4
        rw [h4]
      rw [h3] at h2
      exact h2
    have hfieldsparse : parseLines fl ps1 = { ps1 with
        collections_data := pre ++ [(c, cdocs ++ [(doc.id, doc_pairs cfg doc.data)])] } := by
      have h5 := parse_fields fl (doc_pairs cfg doc.data) hfall hpairs_clean ps1 c doc.id
        pre cdocs [] hcur hcne rfl hid_ne hcd1 hcpre hid_fr
      rw [List.nil_append] at h5
      exact h5
    set ps2 : PState := { ps1 with
      collections_data := pre ++ [(c, cdocs ++ [(doc.id, doc_pairs cfg doc.data)])] } with hps2
    rw [parseLines_append, hfieldsparse, parseLines_cons, parseStep_marker_timeout]
    have hkeys_eq : ∀ (X : List (String × List (String × String))),
        keysOf (pre ++ [(c, X)]) = keysOf pre ++ [c] := by
      intro X
      rw [keysOf_append]
      rfl
    have hnodup2 : (keysOf ps2.collections_data).Nodup := by
      show (keysOf (pre ++ [(c, _)])).Nodup
      rw [hkeys_eq]
      have h6 := hnodup
      rw [hcd, hkeys_eq] at h6
      exact h6
    have hsome2 : ∃ c2 pre2 cdocs2, ps2.current_collection = some c2 ∧ c2 ≠ "" ∧
        ps2.collections_data = pre2 ++ [(c2, cdocs2)] ∧ c2 ∉ keysOf pre2 :=
      ⟨c, pre, cdocs ++ [(doc.id, doc_pairs cfg doc.data)], hcur, hcne, rfl, hcpre⟩
    have hkeys2 : ∀ k ∈ keysOf ps2.collections_data, k ∈ st1.processed_paths := by
      intro k hk
      rw [hp1]
      apply hkeys
      rw [hcd, hkeys_eq]
      have hk2 : k ∈ keysOf (pre ++ [(c, cdocs ++ [(doc.id, doc_pairs cfg doc.data)])]) := hk
      rw [hkeys_eq] at hk2
      exact hk2
    have hflat2 : flatDocs ps2.collections_data =
        flatDocs ps.collections_data ++ [(doc.id, doc_pairs cfg doc.data)] := by
      show flatDocs (pre ++ [(c, _)]) = _
      rw [hcd]
      simp [flatDocs_append, flatDocs]
    have hfresh2 : ∀ i ∈ keysOf (trav_docs cfg store path level rest st1).2.1,
        i ∉ keysOf (flatDocs ps2.collections_data) := by
      rw [htail]
      intro i hi
      rw [hflat2, keysOf_append]
      intro hmem
      rcases List.mem_append.mp hmem with h | h
      · exact hfr i (List.mem_cons_of_mem _ hi) h
      · simp [keysOf] at h
        rw [h] at hi
        exact hnd'.1 hi
    have hnd2 : (keysOf (trav_docs cfg store path level rest st1).2.1).Nodup := by
      rw [htail]
      exact hnd'.2
    have hconc := ih hclean hne (fun d hd => hdocs d (List.mem_cons_of_mem _ hd)) ps2
      hnodup2 hsome2 hkeys2 hfresh2 hnd2
    rw [htail] at hconc
    obtain ⟨hc1, hc2, hc3, hc4, hc5⟩ := hconc
    refine ⟨?_, hc2, hc3, ?_, ?_⟩
    · rw [hc1, hflat2]
      simp
    · intro x hx
      apply hc4
      rw [hp1]
      exact hx
    · intro _
      apply hc5
      show pre ++ [(c, _)] ≠ []
      simp
  case refine_8 =>
    intro path level st0 doc rest hned stA fl nf hdf stB hlt subc t st1 hnt e dl rcs stE htail hrt ih
    intro hclean hne hdocs ps hnodup hsome hkeys hfr hnd
    obtain ⟨c, pre, cdocs, hcur, hcne, hcd, hcpre⟩ := hsome
    obtain ⟨hid_clean, hid_ne, hpairs_clean, hsubc_clean⟩ :=
      hdocs doc (List.mem_cons_self _ _)
    have hp1 : st1.processed_paths = st0.processed_paths := by
      have h2 := run_with_timeout_state cfg doc.subcollections stB
      rw [hrt] at h2
      exact h2
    have hestr : cleanStr e.str = true := by
      rcases hbeh : doc.subcollections with l | _ | e2
      · rw [hbeh] at hrt
        have h7 : (none : Option Exc) = some e :=
          congrArg (fun p => p.1.2.2) hrt
        exact absurd h7 (by simp)
      · rw [hbeh] at hrt
        have h7 : true = t := congrArg (fun p => p.1.2.1) hrt
        exact absurd h7.symm hnt
      · rw [hbeh] at hrt hsubc_clean
        have h7 : some e2 = some e := congrArg (fun p => p.1.2.2) hrt
        obtain rfl := Option.some.inj h7
        exact hsubc_clean
    have htrav : trav_docs cfg store path level (doc :: rest) st0 =
        (("#### Document: `" ++ doc.id ++ "`") ::
          (fl ++ ("*Error fetching subcollections: " ++ e.str ++ "*") :: dl),
         (doc.id, doc_pairs cfg doc.data) :: rcs, stE) := by
      clear ih hfr hnd hkeys
      rw [trav_docs]
      simp_all +zetaDelta
    rw [htrav] at hfr hnd ⊢
    have hnd' : doc.id ∉ keysOf rcs ∧ (keysOf rcs).Nodup := by
      simpa [keysOf] using hnd
    have hid_fr : doc.id ∉ keysOf cdocs := by
      intro hmem
      have h1 : doc.id ∈ keysOf (flatDocs ps.collections_data) :=
        @mem_keysOf_flatDocs_of_mem ps.collections_data c cdocs
          (by rw [hcd]; simp) doc.id hmem
      exact hfr doc.id (by simp [keysOf]) h1
    rw [parseLines_cons, parseStep_document ps doc.id c
      (cleanStr_not_mem hid_clean (by decide)) (cleanStr_not_mem hid_clean (by decide))
      hcur hcne]
    set ps1 : PState := { ps with
      collections_data :=
        updateAssoc ps.collections_data c (fun docs => setAssoc docs doc.id [])
      current_document := some doc.id } with hps1
    have hcd1 : ps1.collections_data = pre ++ [(c, cdocs ++ [(doc.id, [])])] := by
      show updateAssoc ps.collections_data c (fun docs => setAssoc docs doc.id []) =
        pre ++ [(c, cdocs ++ [(doc.id, [])])]
      rw [hcd, updateAssoc_last pre c _ _ hcpre, setAssoc_fresh _ _ _ hid_fr]
    have hfall : List.Forall₂ (fun line pr =>
        ∃ n, line = spaces n ++ "- `" ++ pr.1 ++ "` (" ++ pr.2 ++ ")")
        fl (doc_pairs cfg doc.data) := by
      have h2 := describe_entries_forall2 cfg (sortByKey doc.data) (level + 2)
      have h3 : (describe_entries cfg (sortByKey doc.data) (level + 2)).1 = fl := by
        have h4 : describe_fields cfg doc.data (level + 2) = (fl, nf) := hdf
        unfold describe_fields at h4
        rw [h4]
      rw [h3] at h2
      exact h2
    have hfieldsparse : parseLines fl ps1 = { ps1 with
        collections_data := pre ++ [(c, cdocs ++ [(doc.id, doc_pairs cfg doc.data)])] } := by
      have h5 := parse_fields fl (doc_pairs cfg doc.data) hfall hpairs_clean ps1 c doc.id
        pre cdocs [] hcur hcne rfl hid_ne hcd1 hcpre hid_fr
      rw [List.nil_append] at h5
      exact h5
    set ps2 : PState := { ps1 with
      collections_data := pre ++ [(c, cdocs ++ [(doc.id, doc_pairs cfg doc.data)])] } with hps2
    rw [parseLines_append, hfieldsparse, parseLines_cons,
      parseStep_marker_error _ e.str hestr]
    have hkeys_eq : ∀ (X : List (String × List (String × String))),
        keysOf (pre ++ [(c, X)]) = keysOf pre ++ [c] := by
      intro X
      rw [keysOf_append]
      rfl
    have hnodup2 : (keysOf ps2.collections_data).Nodup := by
      show (keysOf (pre ++ [(c, _)])).Nodup
      rw [hkeys_eq]
      have h6 := hnodup
      rw [hcd, hkeys_eq] at h6
      exact h6
    have hsome2 : ∃ c2 pre2 cdocs2, ps2.current_collection = some c2 ∧ c2 ≠ "" ∧
        ps2.collections_data = pre2 ++ [(c2, cdocs2)] ∧ c2 ∉ keysOf pre2 :=
      ⟨c, pre, cdocs ++ [(doc.id, doc_pairs cfg doc.data)], hcur, hcne, rfl, hcpre⟩
    have hkeys2 : ∀ k ∈ keysOf ps2.collections_data, k ∈ st1.processed_paths := by
      intro k hk
      rw [hp1]
      apply hkeys
      rw [hcd, hkeys_eq]
      have hk2 : k ∈ keysOf (pre ++ [(c, cdocs ++ [(doc.id, doc_pairs cfg doc.data)])]) := hk
      rw [hkeys_eq] at hk2
      exact hk2
    have hflat2 : flatDocs ps2.collections_data =
        flatDocs ps.collections_data ++ [(doc.id, doc_pairs cfg doc.data)] := by
      show flatDocs (pre ++ [(c, _)]) = _
      rw [hcd]
      simp [flatDocs_append, flatDocs]
    have hfresh2 : ∀ i ∈ keysOf (trav_docs cfg store path level rest st1).2.1,
        i ∉ keysOf (flatDocs ps2.collections_data) := by
      rw [htail]
      intro i hi
      rw [hflat2, keysOf_append]
      intro hmem
      rcases List.mem_append.mp hmem with h | h
      · exact hfr i (List.mem_cons_of_mem _ hi) h
      · simp [keysOf] at h
        rw [h] at hi
        exact hnd'.1 hi
    have hnd2 : (keysOf (trav_docs cfg store path level rest st1).2.1).Nodup := by
      rw [htail]
      exact hnd'.2
    have hconc := ih hclean hne (fun d hd => hdocs d (List.mem_cons_of_mem _ hd)) ps2
      hnodup2 hsome2 hkeys2 hfresh2 hnd2
    rw [htail] at hconc
    obtain ⟨hc1, hc2, hc3, hc4, hc5⟩ := hconc
    refine ⟨?_, hc2, hc3, ?_, ?_⟩
    · rw [hc1, hflat2]
      simp
    · intro x hx
      apply hc4
      rw [hp1]
      exact hx
    · intro _
      apply hc5
      show pre ++ [(c, _)] ≠ []
      simp
  case refine_9 =>
    intro path level st0 doc rest hned stA fl nf hdf stB hlt subc t st2 hnt dl1 rcs1 st1 hsub dl rcs stE htail hrt ihsub ih
    intro hclean hne hdocs ps hnodup hsome hkeys hfr hnd
    obtain ⟨c, pre, cdocs, hcur, hcne, hcd, hcpre⟩ := hsome
    obtain ⟨hid_clean, hid_ne, hpairs_clean, hsubc_clean⟩ :=
      hdocs doc (List.mem_cons_self _ _)
    have hp2 : st2.processed_paths = st0.processed_paths := by
      have h2 := run_with_timeout_state cfg doc.subcollections stB
      rw [hrt] at h2
      exact h2
    have hsubs : ∀ i ∈ subc.getD [], cleanStr i = true := by
      rcases hbeh : doc.subcollections with l | _ | e2
      · rw [hbeh] at hrt hsubc_clean
        have h7 : some l = subc := congrArg (fun p => p.1.1) hrt
        rw [← h7]
        exact fun i hi => hsubc_clean i hi
      · rw [hbeh] at hrt
        have h7 : true = t := congrArg (fun p => p.1.2.1) hrt
        exact absurd h7.symm hnt
      · rw [hbeh] at hrt
        have h7 : (some e2 : Option Exc) = none := congrArg (fun p => p.1.2.2) hrt
        exact absurd h7 (by simp)
    have htrav : trav_docs cfg store path level (doc :: rest) st0 =
        (("#### Document: `" ++ doc.id ++ "`") :: (fl ++ dl1 ++ dl),
         (doc.id, doc_pairs cfg doc.data) :: (rcs1 ++ rcs), stE) := by
      clear ih ihsub hfr hnd hkeys
      rw [trav_docs]
      simp_all +zetaDelta
    rw [htrav] at hfr hnd ⊢
    have hnd' : doc.id ∉ keysOf (rcs1 ++ rcs) ∧ (keysOf (rcs1 ++ rcs)).Nodup := by
      have h8 := hnd
      rw [show keysOf ((doc.id, doc_pairs cfg doc.data) :: (rcs1 ++ rcs)) =
        doc.id :: keysOf (rcs1 ++ rcs) from rfl] at h8
      exact List.nodup_cons.mp h8
    have hnd2' : (keysOf rcs1).Nodup ∧ (keysOf rcs).Nodup ∧
        List.Disjoint (keysOf rcs1) (keysOf rcs) := by
      have h8 := hnd'.2
      rw [keysOf_append] at h8
      exact List.nodup_append.mp h8
    have hid_fr : doc.id ∉ keysOf cdocs := by
      intro hmem
      have h1 : doc.id ∈ keysOf (flatDocs ps.collections_data) :=
        @mem_keysOf_flatDocs_of_mem ps.collections_data c cdocs
          (by rw [hcd]; simp) doc.id hmem
      exact hfr doc.id (by simp [keysOf]) h1
    rw [parseLines_cons, parseStep_document ps doc.id c
      (cleanStr_not_mem hid_clean (by decide)) (cleanStr_not_mem hid_clean (by decide))
      hcur hcne]
    set ps1 : PState := { ps with
      collections_data :=
        updateAssoc ps.collections_data c (fun docs => setAssoc docs doc.id [])
      current_document := some doc.id } with hps1
    have hcd1 : ps1.collections_data = pre ++ [(c, cdocs ++ [(doc.id, [])])] := by
      show updateAssoc ps.collections_data c (fun docs => setAssoc docs doc.id []) =
        pre ++ [(c, cdocs ++ [(doc.id, [])])]
      rw [hcd, updateAssoc_last pre c _ _ hcpre, setAssoc_fresh _ _ _ hid_fr]
    have hfall : List.Forall₂ (fun line pr =>
        ∃ n, line = spaces n ++ "- `" ++ pr.1 ++ "` (" ++ pr.2 ++ ")")
        fl (doc_pairs cfg doc.data) := by
      have h2 := describe_entries_forall2 cfg (sortByKey doc.data) (level + 2)
      have h3 : (describe_entries cfg (sortByKey doc.data) (level + 2)).1 = fl := by
        have h4 : describe_fields cfg doc.data (level + 2) = (fl, nf) := hdf
        unfold describe_fields at h4
        rw [h4]
      rw [h3] at h2
      exact h2
    have hfieldsparse : parseLines fl ps1 = { ps1 with
        collections_data := pre ++ [(c, cdocs ++ [(doc.id, doc_pairs cfg doc.data)])] } := by
      have h5 := parse_fields fl (doc_pairs cfg doc.data) hfall hpairs_clean ps1 c doc.id
        pre cdocs [] hcur hcne rfl hid_ne hcd1 hcpre hid_fr
      rw [List.nil_append] at h5
      exact h5
    set ps2 : PState := { ps1 with
      collections_data := pre ++ [(c, cdocs ++ [(doc.id, doc_pairs cfg doc.data)])] } with hps2
    rw [parseLines_append, parseLines_append, hfieldsparse]
    have hkeys_eq : ∀ (X : List (String × List (String × String))),
        keysOf (pre ++ [(c, X)]) = keysOf pre ++ [c] := by
      intro X
      rw [keysOf_append]
      rfl
    have hnodup2 : (keysOf ps2.collections_data).Nodup := by
      show (keysOf (pre ++ [(c, _)])).Nodup
      rw [hkeys_eq]
      have h6 := hnodup
      rw [hcd, hkeys_eq] at h6
      exact h6
    have hsome2 : ∃ c2 pre2 cdocs2, ps2.current_collection = some c2 ∧ c2 ≠ "" ∧
        ps2.collections_data = pre2 ++ [(c2, cdocs2)] ∧ c2 ∉ keysOf pre2 :=
      ⟨c, pre, cdocs ++ [(doc.id, doc_pairs cfg doc.data)], hcur, hcne, rfl, hcpre⟩
    have hkeys2 : ∀ k ∈ keysOf ps2.collections_data, k ∈ st2.processed_paths := by
      intro k hk
      rw [hp2]
      apply hkeys
      rw [hcd, hkeys_eq]
      have hk2 : k ∈ keysOf (pre ++ [(c, cdocs ++ [(doc.id, doc_pairs cfg doc.data)])]) := hk
      rw [hkeys_eq] at hk2
      exact hk2
    have hflat2 : flatDocs ps2.collections_data =
        flatDocs ps.collections_data ++ [(doc.id, doc_pairs cfg doc.data)] := by
      show flatDocs (pre ++ [(c, _)]) = _
      rw [hcd]
      simp [flatDocs_append, flatDocs]
    have hclean2 : cleanStr (path ++ "/" ++ doc.id) = true := by
      rw [cleanStr_append, cleanStr_append, hclean, hid_clean]
      decide
    have hne2 : path ++ "/" ++ doc.id ≠ "" :=
      ne_empty_append_left _ _ (ne_empty_append_left _ _ hne)
    have hinv2 : PInv ps2 := ⟨hnodup2, Or.inr hsome2⟩
    have hfresh_sub : ∀ i ∈ keysOf (trav_subcols cfg store (path ++ "/" ++ doc.id)
        level (subc.getD []) st2 hlt).2.1,
        i ∉ keysOf (flatDocs ps2.collections_data) := by
      rw [hsub]
      intro i hi
      rw [hflat2, keysOf_append]
      intro hmem
      have h10 : i ∈ keysOf (rcs1 ++ rcs) := by
        rw [keysOf_append]
        exact List.mem_append_left _ hi
      rcases List.mem_append.mp hmem with h | h
      · exact hfr i (List.mem_cons_of_mem _ h10) h
      · simp [keysOf] at h
        rw [h] at hi
        rw [h] at h10
        exact hnd'.1 h10
    have hconcsub := ihsub hclean2 hne2 hsubs ps2 hinv2 hkeys2 hfresh_sub
      (by rw [hsub]; exact hnd2'.1)
    rw [hsub] at hconcsub
    obtain ⟨hs1, hs2, hs3, hs4, hs5⟩ := hconcsub
    set ps3 : PState := parseLines dl1 ps2 with hps3
    have hne3 : ps3.collections_data ≠ [] := by
      apply hs5
      show pre ++ [(c, _)] ≠ []
      simp
    obtain ⟨hnodup3, hor⟩ := hs2
    rcases hor with ⟨_, hnil⟩ | hsome3
    · exact absurd hnil hne3
    have hfresh3 : ∀ i ∈ keysOf (trav_docs cfg store path level rest st1).2.1,
        i ∉ keysOf (flatDocs ps3.collections_data) := by
      rw [htail]
      intro i hi hmem
      rw [hs1, hflat2, keysOf_append, keysOf_append] at hmem
      have h10 : i ∈ keysOf (rcs1 ++ rcs) := by
        rw [keysOf_append]
        exact List.mem_append_right _ hi
      rcases List.mem_append.mp hmem with h | h
      · rcases List.mem_append.mp h with h9 | h9
        · exact hfr i (List.mem_cons_of_mem _ h10) h9
        · simp [keysOf] at h9
          rw [h9] at hi h10
          exact hnd'.1 h10
      · exact hnd2'.2.2 h hi
    have hconc := ih hclean hne (fun d hd => hdocs d (List.mem_cons_of_mem _ hd)) ps3
      hnodup3 hsome3 hs3 hfresh3 (by rw [htail]; exact hnd2'.2.1)
    rw [htail] at hconc
    obtain ⟨hc1, hc2, hc3, hc4, hc5⟩ := hconc
    refine ⟨?_, hc2, hc3, ?_, ?_⟩
    · rw [hc1, hs1, hflat2]
      simp
    · intro x hx
      apply hc4
      apply hs4
      rw [hp2]
      exact hx
    · intro _
      exact hc5 hne3
  case refine_12 =>
    intro docPath level st0 h subcolId rest dl1 rcs1 st1 hsubeq dl2 rcs2 stE hresteq ihcol ihrest
    intro hclean hne hsubs ps hinv hkeys hfr hnd
    have htrav : trav_subcols cfg store docPath level (subcolId :: rest) st0 h =
        (dl1 ++ dl2, rcs1 ++ rcs2, stE) := by
      clear ihcol ihrest hfr hnd hkeys
      rw [trav_subcols]
      simp_all +zetaDelta
    rw [htrav] at hfr hnd ⊢
    have hnd2' : (keysOf rcs1).Nodup ∧ (keysOf rcs2).Nodup ∧
        List.Disjoint (keysOf rcs1) (keysOf rcs2) := by
      have h8 := hnd
      rw [show ((dl1 ++ dl2, rcs1 ++ rcs2, stE) :
        List String × List (String × List (String × String)) × ExplorerState).2.1 =
        rcs1 ++ rcs2 from rfl, keysOf_append] at h8
      exact List.nodup_append.mp h8
    have hcleansub : cleanStr (docPath ++ "/" ++ subcolId) = true := by
      rw [cleanStr_append, cleanStr_append, hclean,
        hsubs subcolId (List.mem_cons_self _ _)]
      decide
    have hnesub : docPath ++ "/" ++ subcolId ≠ "" :=
      ne_empty_append_left _ _ (ne_empty_append_left _ _ hne)
    have hfr1 : ∀ i ∈ keysOf (trav_collection cfg store (docPath ++ "/" ++ subcolId)
        (level + 2) st0).2.1, i ∉ keysOf (flatDocs ps.collections_data) := by
      rw [hsubeq]
      intro i hi
      apply hfr
      show i ∈ keysOf (rcs1 ++ rcs2)
      rw [keysOf_append]
      exact List.mem_append_left _ hi
    have hconc1 := ihcol hcleansub hnesub ps hinv hkeys hfr1
      (by rw [hsubeq]; exact hnd2'.1)
    rw [hsubeq] at hconc1
    obtain ⟨hs1, hs2, hs3, hs4, hs5⟩ := hconc1
    set ps1 : PState := parseLines dl1 ps with hps1
    have hfr2 : ∀ i ∈ keysOf (trav_subcols cfg store docPath level rest st1 h).2.1,
        i ∉ keysOf (flatDocs ps1.collections_data) := by
      rw [hresteq]
      intro i hi hmem
      have h10 : i ∈ keysOf (rcs1 ++ rcs2) := by
        rw [keysOf_append]
        exact List.mem_append_right _ hi
      rw [hs1, keysOf_append] at hmem
      rcases List.mem_append.mp hmem with h9 | h9
      · exact hfr i h10 h9
      · exact hnd2'.2.2 h9 hi
    have hconc2 := ihrest hclean hne (fun i hi2 => hsubs i (List.mem_cons_of_mem _ hi2))
      ps1 hs2 hs3 hfr2 (by rw [hresteq]; exact hnd2'.2.1)
    rw [hresteq] at hconc2
    obtain ⟨ht1, ht2, ht3, ht4, ht5⟩ := hconc2
    rw [parseLines_append]
    refine ⟨?_, ht2, ht3, ?_, ?_⟩
    · rw [ht1, hs1]
      simp
    · intro x hx
      exact ht4 x (hs4 x hx)
    · intro hne0
      exact ht5 (hs5 hne0)

def badStore : Store := fun _ =>
  ⟨.completes [], .completes [⟨"d1", [("a(b", .integer 1)], .completes []⟩]⟩

def roundStore : Store := fun _ =>
  ⟨.completes [], .completes [⟨"d1", [("a", .boolean true)], .completes []⟩]⟩

unseal describe_entries process_collection process_docs process_subcols trav_collection trav_docs trav_subcols field_pairs in
/-- C8 counterexample: a field name containing a parenthesis breaks the
round trip.  For the single sampled document `describe_fields` records
the pair `("a(b", "integer")`, but `export_to_file`'s line parser takes
the field type from `line.split("(")[1].split(")")[0]`, which for the
bullet ``- `a(b` (integer)`` is the text between the FIRST parenthesis
and the first closing one — the fragment "b\x60 " — so the parsed
structure does not reproduce the recorded pair. -/
theorem c8_counterexample :
    doc_pairs ({} : Config) [("a(b", Value.integer 1)] = [("a(b", "integer")] ∧
    flatDocs (parseLines (process_collection ({} : Config) badStore "root" 0 {}).1
        ({} : PState)).collections_data = [("d1", [("a(b", "b` ")])] := by
  constructor
  · decide
  · decide

/-- C8 (amended): the round trip holds for clean reports.  For any store
whose sampled documents have nonempty ids and whose ids, recorded
name/type pairs, child-collection ids and error texts avoid the
parser-colliding characters (backtick, parentheses, hash, newline —
`CleanStore`), and whose traversal records globally distinct document
ids, parsing the lines `process_collection` produced from a fresh state
with `export_to_file`'s JSON-branch line parser rebuilds, document by
document in traversal order, exactly the name/type pairs that
`describe_fields` recorded during the traversal (the ghost record of
`trav_collection`, whose lines and final state coincide with
`process_collection` by the first conjunct). -/
theorem c8_amended (cfg : Config) (store : Store) (path : String)
    (hCS : CleanStore cfg store) (hclean : cleanStr path = true) (hne : path ≠ "")
    (hnd : (keysOf (trav_collection cfg store path 0
      ({} : ExplorerState)).2.1).Nodup) :
    process_collection cfg store path 0 {} =
      ((trav_collection cfg store path 0 {}).1,
       (trav_collection cfg store path 0 {}).2.2) ∧
    flatDocs (parseLines (process_collection cfg store path 0 {}).1
        ({} : PState)).collections_data =
      (trav_collection cfg store path 0 {}).2.1 := by
  have hproj := (trav_projection cfg store).1 path 0 {}
  refine ⟨hproj, ?_⟩
  have hlines : (process_collection cfg store path 0 {}).1 =
      (trav_collection cfg store path 0 {}).1 := by
    rw [hproj]
  rw [hlines]
  have hconc := (parse_trav cfg store hCS).1 path 0 {} hclean hne {}
    ⟨List.nodup_nil, Or.inl ⟨rfl, rfl⟩⟩
    (fun k hk => absurd hk (by simp [keysOf]))
    (fun i _ hmem => absurd hmem (by simp [flatDocs, keysOf]))
    hnd
  have h1 := hconc.1
  rw [show flatDocs (PState.collections_data {}) = [] from rfl] at h1
  rw [h1]
  simp



unseal describe_entries process_collection process_docs process_subcols trav_collection trav_docs trav_subcols field_pairs in
/-- C8 amended witness: the clean one-document store at concrete inputs;
all cleanliness and distinctness hypotheses hold by evaluation. -/
theorem c8_amended_witness :
    process_collection ({} : Config) roundStore "root" 0 {} =
      ((trav_collection ({} : Config) roundStore "root" 0 {}).1,
       (trav_collection ({} : Config) roundStore "root" 0 {}).2.2) ∧
    flatDocs (parseLines (process_collection ({} : Config) roundStore "root" 0 {}).1
        ({} : PState)).collections_data =
      (trav_collection ({} : Config) roundStore "root" 0 {}).2.1 :=
  c8_amended {} roundStore "root"
    (by
      intro p
      intro doc hdoc
      rw [List.mem_singleton] at hdoc
      subst hdoc
      refine ⟨by decide, by decide, by decide, ?_⟩
      intro i hi
      exact absurd hi (by simp))
    (by decide) (by decide) (by decide)

end FirestoreSchema
